import Mathlib

/-!
Verification of the ROAST coordinator and DKG driver (roast-core).

The Rust source is shallowly embedded: `BTreeMap<Identifier, V>` becomes an
association list with unique keys (`Mp V`), `BTreeSet<Identifier>` a duplicate
free `List Nat`, and the FROST primitives (share verification, aggregation,
proof-of-knowledge and secret-share checks) are abstract parameters bundled in
`FrostPrimitives` / `DkgPrimitives`, exactly as the crate treats them as a
black-box ciphersuite boundary.
-/

namespace Roast

/-- Association-list model of `BTreeMap<Identifier<C>, V>`; keys are kept
unique by `mInsert`. -/
abbrev Mp (V : Type) : Type := List (Nat × V)

/-- `BTreeMap::get`. -/
def mLookup {V : Type} (k : Nat) : Mp V → Option V
  | [] => none
  | (k', v) :: rest => if k = k' then some v else mLookup k rest

/-- `BTreeMap::insert`: replaces the binding of `k` in place, or appends it. -/
def mInsert {V : Type} (k : Nat) (v : V) : Mp V → Mp V
  | [] => [(k, v)]
  | (k', v') :: rest => if k = k' then (k, v) :: rest else (k', v') :: mInsert k v rest

/-- The key list of a map (`BTreeMap::keys`). -/
def mKeys {V : Type} (m : Mp V) : List Nat := m.map Prod.fst

/-- `BTreeSet::insert` on a duplicate-free list. -/
def sInsert (k : Nat) (s : List Nat) : List Nat := if k ∈ s then s else k :: s

/-- `MaliciousSignerError` from `error.rs`. -/
inductive MaliciousSignerError : Type where
  | unsolicitedReply
  | invalidSignatureShare
deriving DecidableEq, Repr

/-- The FROST-primitive error kinds (`frost_core::Error`) that the embedded
code mentions; all other primitive failures are collapsed into `other`. -/
inductive FrostError : Type where
  | invalidMinSigners
  | invalidMaxSigners
  | unknownIdentifier
  | incorrectNumberOfCommitments
  | incorrectNumberOfPackages
  | incorrectPackage
  | invalidSecretShare
  | packageNotFound
  | invalidProofOfKnowledge
  | other (code : Nat)
deriving DecidableEq, Repr

/-- `DkgError` from `error.rs`. -/
inductive DkgError : Type where
  | duplicateParticipants
  | unknownParticipant
  | invalidSecretShares
  | invalidStateTransition
deriving DecidableEq, Repr

/-- The crate-level `Error<C>` as used by `coordinator.rs` and `dkg.rs`. -/
inductive RError : Type where
  | frost (e : FrostError)
  | maliciousSigner (e : MaliciousSignerError)
  | tooManyMaliciousSigners
  | dkg (e : DkgError)
deriving DecidableEq, Repr

section Coordinator

variable {Sh Cm Sg VS VK M : Type}

/-- `SigningPackage<C>`: the commitments of the quorum plus the message. -/
structure SigningPackage (Cm M : Type) : Type where
  signingCommitments : Mp Cm
  message : M
deriving DecidableEq, Repr

/-- `PublicKeyPackage<C>`: verifying shares per identifier and the group
verifying key. -/
structure PublicKeyPackage (VS VK : Type) : Type where
  verifyingShares : Mp VS
  verifyingKey : VK
deriving DecidableEq, Repr

/-- Private `Session` record of the coordinator. -/
structure Session (Sh Cm M : Type) : Type where
  signingPackage : SigningPackage Cm M
  signatureShares : Mp Sh
deriving DecidableEq, Repr

/-- `SessionStatus<C>`. -/
inductive SessionStatus (Sh Cm Sg M : Type) : Type where
  | inProgress
  | started (signers : List Nat) (signingPackage : SigningPackage Cm M)
  | finished (signature : Sg)
deriving DecidableEq, Repr

/-- The black-box FROST primitives the coordinator invokes
(`frost_core::verify_signature_share`, `frost_core::aggregate`, and plain
signature verification used only to state the aggregation contract). -/
structure FrostPrimitives (Sh Cm Sg VS VK M : Type) : Type where
  verifySignatureShare : Nat → VS → Sh → SigningPackage Cm M → VK → Except FrostError Unit
  aggregate : SigningPackage Cm M → Mp Sh → PublicKeyPackage VS VK → Except FrostError Sg
  verifySignature : M → Sg → VK → Except FrostError Unit

/-- `Coordinator<C>` state. -/
structure Coordinator (Sh Cm Sg VS VK M : Type) : Type where
  maxSigners : Nat
  minSigners : Nat
  publicKeyPackage : PublicKeyPackage VS VK
  message : M
  responsiveSigners : List Nat
  maliciousSigners : Mp MaliciousSignerError
  latestSigningCommitments : Mp Cm
  sessionCounter : Nat
  signerSession : Mp Nat
  session : Mp (Session Sh Cm M)
deriving DecidableEq, Repr

/-- `Coordinator::new`. -/
def Coordinator.new (maxSigners minSigners : Nat) (publicKeyPackage : PublicKeyPackage VS VK)
    (message : M) : Except RError (Coordinator Sh Cm Sg VS VK M) :=
  if minSigners < 2 then .error (.frost .invalidMinSigners)
  else if maxSigners < 2 then .error (.frost .invalidMaxSigners)
  else if minSigners > maxSigners then .error (.frost .invalidMinSigners)
  else .ok
    { maxSigners := maxSigners
      minSigners := minSigners
      publicKeyPackage := publicKeyPackage
      message := message
      responsiveSigners := []
      maliciousSigners := []
      latestSigningCommitments := []
      sessionCounter := 0
      signerSession := []
      session := [] }

/-- `Coordinator::mark_malicious`. -/
def Coordinator.markMalicious (c : Coordinator Sh Cm Sg VS VK M) (identifier : Nat)
    (maliciousSignerError : MaliciousSignerError) :
    RError × Coordinator Sh Cm Sg VS VK M :=
  let c' := { c with
    maliciousSigners := mInsert identifier maliciousSignerError c.maliciousSigners }
  if c'.maliciousSigners.length > c.maxSigners - c.minSigners then
    (.tooManyMaliciousSigners, c')
  else
    (.maliciousSigner maliciousSignerError, c')

/-- Lines 166-207 of `Coordinator::receive`: register the fresh commitment,
add the signer to `responsive_signers` and, at the `min_signers` threshold,
open a new session. -/
def Coordinator.registerAndOpen (c : Coordinator Sh Cm Sg VS VK M) (identifier : Nat)
    (signingCommitments : Cm) :
    Except RError (SessionStatus Sh Cm Sg M) × Coordinator Sh Cm Sg VS VK M :=
  let c1 := { c with
    latestSigningCommitments := mInsert identifier signingCommitments c.latestSigningCommitments
    responsiveSigners := sInsert identifier c.responsiveSigners }
  if c1.responsiveSigners.length = c1.minSigners then
    let sessionId := c1.sessionCounter + 1
    let signingCommitmentsMap : Mp Cm := c1.responsiveSigners.filterMap fun id =>
      (mLookup id c1.latestSigningCommitments).map fun sc => (id, sc)
    let signingPackage : SigningPackage Cm M :=
      { signingCommitments := signingCommitmentsMap, message := c1.message }
    let signerSession := c1.responsiveSigners.foldl
      (fun m id => mInsert id sessionId m) c1.signerSession
    let c2 := { c1 with
      sessionCounter := sessionId
      signerSession := signerSession
      session := mInsert sessionId
        { signingPackage := signingPackage, signatureShares := [] } c1.session
      responsiveSigners := [] }
    (.ok (.started c1.responsiveSigners signingPackage), c2)
  else
    (.ok .inProgress, c1)

/-- The inner verification closure of `Coordinator::receive` (lines 131-146):
look up the verifying share of the signer (`UnknownIdentifier` if absent) and call
`frost_core::verify_signature_share`. -/
def Coordinator.verificationResult (P : FrostPrimitives Sh Cm Sg VS VK M)
    (c : Coordinator Sh Cm Sg VS VK M) (identifier : Nat) (share : Sh)
    (sess : Session Sh Cm M) : Except FrostError Unit :=
  match mLookup identifier c.publicKeyPackage.verifyingShares with
  | none => .error .unknownIdentifier
  | some verifyingShare =>
    P.verifySignatureShare identifier verifyingShare share sess.signingPackage
      c.publicKeyPackage.verifyingKey

/-- `Coordinator::receive`. -/
def Coordinator.receive (P : FrostPrimitives Sh Cm Sg VS VK M)
    (c : Coordinator Sh Cm Sg VS VK M) (identifier : Nat) (signatureShare : Option Sh)
    (signingCommitments : Cm) :
    Except RError (SessionStatus Sh Cm Sg M) × Coordinator Sh Cm Sg VS VK M :=
  match mLookup identifier c.maliciousSigners with
  | some err => (.error (.maliciousSigner err), c)
  | none =>
    if identifier ∈ c.responsiveSigners then
      let r := c.markMalicious identifier .unsolicitedReply
      (.error r.1, r.2)
    else
      match (mLookup identifier c.signerSession).bind
          (fun sessionId => (mLookup sessionId c.session).map fun s => (sessionId, s)) with
      | some (sessionId, sess) =>
        match signatureShare with
        | none =>
          let r := c.markMalicious identifier .invalidSignatureShare
          (.error r.1, r.2)
        | some share =>
          match Coordinator.verificationResult P c identifier share sess with
          | .error _ =>
            let r := c.markMalicious identifier .invalidSignatureShare
            (.error r.1, r.2)
          | .ok _ =>
            let signatureShares := mInsert identifier share sess.signatureShares
            let c1 := { c with
              session := mInsert sessionId
                { sess with signatureShares := signatureShares } c.session }
            if signatureShares.length = c.minSigners then
              match P.aggregate sess.signingPackage signatureShares c.publicKeyPackage with
              | .error e => (.error (.frost e), c1)
              | .ok signature => (.ok (.finished signature), c1)
            else
              c1.registerAndOpen identifier signingCommitments
      | none => c.registerAndOpen identifier signingCommitments

/-- One `receive` call as delivered by the embedder. -/
structure ReceiveEvent (Sh Cm : Type) : Type where
  identifier : Nat
  signatureShare : Option Sh
  signingCommitments : Cm
deriving DecidableEq, Repr

/-- Drive the coordinator through a sequence of `receive` calls, keeping only
the state (the embedder observes the results separately). -/
def runReceives (P : FrostPrimitives Sh Cm Sg VS VK M) (c : Coordinator Sh Cm Sg VS VK M) :
    List (ReceiveEvent Sh Cm) → Coordinator Sh Cm Sg VS VK M
  | [] => c
  | ev :: rest =>
    runReceives P (Coordinator.receive P c ev.identifier ev.signatureShare
      ev.signingCommitments).2 rest

end Coordinator

section Dkg

variable {R1 R2 SK1 SK2 KP PK : Type}

/-- `DkgStatus` from `dkg.rs`. -/
inductive DkgStatus : Type where
  | inProgress
  | finishedRound1
  | finishedRound2
  | finishedRound3
deriving DecidableEq, Repr

/-- The black-box FROST DKG primitives used by `dkg.rs`: the number of
coefficients of a round-1 commitment, `dkg::verify_proof_of_knowledge`,
`SecretShare::new(id, signing_share, commitment).verify()` (as a function of
the receiver id, the round-2 package holding the signing share and the round-1
package holding the commitment), and `dkg::part3`. -/
structure DkgPrimitives (R1 R2 SK2 KP PK : Type) : Type where
  coefficientCount : R1 → Nat
  verifyProofOfKnowledge : Nat → R1 → Except FrostError Unit
  verifySecretShare : Nat → R2 → R1 → Except FrostError Unit
  part3 : SK2 → Mp R1 → Mp R2 → Except FrostError (KP × PK)

/-- `TrustedThirdParty<C>` state. -/
structure TrustedThirdParty (R1 R2 : Type) : Type where
  maxSigners : Nat
  minSigners : Nat
  participants : List Nat
  participantsSet : List Nat
  round1Packages : Mp R1
  round2Packages : Mp (Mp R2)
  round2ParticipantsSet : List Nat
  round2CulpritsSet : List Nat
deriving DecidableEq, Repr

/-- `TrustedThirdParty::new`. -/
def TrustedThirdParty.new (maxSigners minSigners : Nat) (participants : List Nat) :
    Except RError (TrustedThirdParty R1 R2) :=
  if minSigners < 2 then .error (.frost .invalidMinSigners)
  else if maxSigners < 2 then .error (.frost .invalidMaxSigners)
  else if minSigners > maxSigners then .error (.frost .invalidMinSigners)
  else
    let participantsSet := participants.dedup
    if participantsSet.length ≠ participants.length then
      .error (.dkg .duplicateParticipants)
    else .ok
      { maxSigners := maxSigners
        minSigners := minSigners
        participants := participants
        participantsSet := participantsSet
        round1Packages := []
        round2Packages := []
        round2ParticipantsSet := []
        round2CulpritsSet := [] }

/-- `TrustedThirdParty::receive_round1_package`. -/
def TrustedThirdParty.receiveRound1Package (P : DkgPrimitives R1 R2 SK2 KP PK)
    (t : TrustedThirdParty R1 R2) (identifier : Nat) (round1Package : R1) :
    Except RError DkgStatus × TrustedThirdParty R1 R2 :=
  if identifier ∉ t.participantsSet then (.error (.dkg .unknownParticipant), t)
  else if P.coefficientCount round1Package ≠ t.minSigners then
    (.error (.frost .incorrectNumberOfCommitments), t)
  else
    match P.verifyProofOfKnowledge identifier round1Package with
    | .error e => (.error (.frost e), t)
    | .ok _ =>
      let t' := { t with round1Packages := mInsert identifier round1Package t.round1Packages }
      if t'.round1Packages.length = t.maxSigners then (.ok .finishedRound1, t')
      else (.ok .inProgress, t')

/-- `TrustedThirdParty::receive_round2_packages`. -/
def TrustedThirdParty.receiveRound2Packages (t : TrustedThirdParty R1 R2)
    (identifier : Nat) (round2Packages : Mp R2) :
    Except RError DkgStatus × TrustedThirdParty R1 R2 :=
  if identifier ∉ t.participantsSet then (.error (.dkg .unknownParticipant), t)
  else if round2Packages.length ≠ t.maxSigners - 1 then
    (.error (.frost .incorrectNumberOfPackages), t)
  else if ∃ id ∈ t.participants, id ≠ identifier ∧ id ∉ mKeys round2Packages then
    (.error (.frost .incorrectPackage), t)
  else
    let redistributed := round2Packages.foldl
      (fun m rp =>
        mInsert rp.1 (mInsert identifier rp.2 ((mLookup rp.1 m).getD [])) m)
      t.round2Packages
    let t' := { t with
      round2Packages := redistributed
      round2ParticipantsSet := sInsert identifier t.round2ParticipantsSet }
    if t'.round2ParticipantsSet.length = t.maxSigners then (.ok .finishedRound2, t')
    else (.ok .inProgress, t')

/-- The loop body of `TrustedThirdParty::receive_round2_culprits`: walk the
stored round-2 packages sent to `identifier`; for every sender that is among
the alleged culprits, rebuild the secret share and verify it, inserting the
sender into the culprit set exactly on `InvalidSecretShare`. A missing round-1
package aborts with `PackageNotFound`, keeping the insertions made so far. -/
def processRound2Culprits (P : DkgPrimitives R1 R2 SK2 KP PK)
    (round1Packages : Mp R1) (identifier : Nat) (round2Culprits : List Nat) :
    List (Nat × R2) → List Nat → Option FrostError × List Nat
  | [], acc => (none, acc)
  | (sender, pkg) :: rest, acc =>
    if sender ∈ round2Culprits then
      match mLookup sender round1Packages with
      | none => (some .packageNotFound, acc)
      | some r1 =>
        match P.verifySecretShare identifier pkg r1 with
        | .error .invalidSecretShare =>
          processRound2Culprits P round1Packages identifier round2Culprits rest
            (sInsert sender acc)
        | _ => processRound2Culprits P round1Packages identifier round2Culprits rest acc
    else processRound2Culprits P round1Packages identifier round2Culprits rest acc

/-- `TrustedThirdParty::receive_round2_culprits`. -/
def TrustedThirdParty.receiveRound2Culprits (P : DkgPrimitives R1 R2 SK2 KP PK)
    (t : TrustedThirdParty R1 R2) (identifier : Nat) (round2Culprits : List Nat) :
    Except RError DkgStatus × TrustedThirdParty R1 R2 :=
  if identifier ∉ t.participantsSet then (.error (.dkg .unknownParticipant), t)
  else if ∃ id ∈ round2Culprits, id ∉ t.participantsSet then
    (.error (.dkg .unknownParticipant), t)
  else
    match mLookup identifier t.round2Packages with
    | some round2Packages =>
      let r := processRound2Culprits P t.round1Packages identifier round2Culprits
        round2Packages t.round2CulpritsSet
      let t' := { t with round2CulpritsSet := r.2 }
      match r.1 with
      | some e => (.error (.frost e), t')
      | none => (.ok .inProgress, t')
    | none => (.ok .inProgress, t)

/-- `TrustedThirdParty::try_finish`. -/
def TrustedThirdParty.tryFinish (t : TrustedThirdParty R1 R2) : Except RError DkgStatus :=
  if t.round2CulpritsSet ≠ [] then .error (.dkg .invalidSecretShares)
  else .ok .finishedRound3

/-- `Participant<C>` state; the `Option` fields are the take-once slots. -/
structure Participant (R1 R2 SK1 SK2 : Type) : Type where
  identifier : Nat
  maxSigners : Nat
  round1SecretPackage : Option SK1
  round1Package : Option R1
  round2SecretPackage : Option SK2
  round2Packages : Option (Mp R2)
  round1Packages : Option (Mp R1)
  round2CulpritsSet : Option (List Nat)
deriving DecidableEq, Repr

/-- The culprit-collection loop of `Participant::receive_round2_packages`:
verify each received secret share against the round-1 commitment of the sender,
collecting the senders whose verification fails with `InvalidSecretShare`;
a missing round-1 package aborts with `PackageNotFound`. -/
def collectCulprits (P : DkgPrimitives R1 R2 SK2 KP PK) (selfIdentifier : Nat)
    (round1Packages : Mp R1) :
    List (Nat × R2) → List Nat → Option FrostError × List Nat
  | [], acc => (none, acc)
  | (sender, pkg) :: rest, acc =>
    match mLookup sender round1Packages with
    | none => (some .packageNotFound, acc)
    | some r1 =>
      match P.verifySecretShare selfIdentifier pkg r1 with
      | .error .invalidSecretShare =>
        collectCulprits P selfIdentifier round1Packages rest (sInsert sender acc)
      | _ => collectCulprits P selfIdentifier round1Packages rest acc

/-- `Participant::receive_round2_packages`. -/
def Participant.receiveRound2Packages (P : DkgPrimitives R1 R2 SK2 KP PK)
    (p : Participant R1 R2 SK1 SK2) (round2Packages : Mp R2) :
    Except RError (KP × PK) × Participant R1 R2 SK1 SK2 :=
  match p.round2SecretPackage with
  | none => (.error (.dkg .invalidStateTransition), p)
  | some round2SecretPackage =>
    let p1 := { p with round2SecretPackage := none }
    match p1.round1Packages with
    | none => (.error (.dkg .invalidStateTransition), p1)
    | some round1Packages =>
      let p2 := { p1 with round1Packages := none }
      if round1Packages.length ≠ p2.maxSigners - 1 then
        (.error (.frost .invalidMinSigners), p2)
      else if round1Packages.length ≠ round2Packages.length then
        (.error (.frost .incorrectNumberOfPackages), p2)
      else if ∃ id ∈ mKeys round1Packages, id ∉ mKeys round2Packages then
        (.error (.frost .incorrectPackage), p2)
      else
        match collectCulprits P p2.identifier round1Packages round2Packages [] with
        | (some e, _) => (.error (.frost e), p2)
        | (none, round2CulpritsSet) =>
          if round2CulpritsSet ≠ [] then
            (.error (.dkg .invalidSecretShares),
              { p2 with round2CulpritsSet := some round2CulpritsSet })
          else
            match P.part3 round2SecretPackage round1Packages round2Packages with
            | .error e => (.error (.frost e), p2)
            | .ok kpPk => (.ok kpPk, p2)

end Dkg

section Invariant

variable {Sh Cm Sg VS VK M : Type}

/-- The signers currently bound to session `sid` in `signer_session`. -/
def boundTo (c : Coordinator Sh Cm Sg VS VK M) (sid : Nat) : List Nat :=
  (mKeys c.signerSession).filter fun id => mLookup id c.signerSession = some sid

/-- State invariant of the coordinator, established by `Coordinator::new` and
preserved by every `Coordinator::receive` call. -/
structure Inv (c : Coordinator Sh Cm Sg VS VK M) : Prop where
  two_le_min : 2 ≤ c.minSigners
  min_le_max : c.minSigners ≤ c.maxSigners
  resp_nodup : c.responsiveSigners.Nodup
  ss_nodup : (mKeys c.signerSession).Nodup
  sess_nodup : (mKeys c.session).Nodup
  shares_nodup : ∀ sid sess, mLookup sid c.session = some sess →
    (mKeys sess.signatureShares).Nodup
  resp_latest : ∀ id ∈ c.responsiveSigners, id ∈ mKeys c.latestSigningCommitments
  resp_lt : c.responsiveSigners.length < c.minSigners
  sess_dom : ∀ sid, sid ∈ mKeys c.session ↔ (1 ≤ sid ∧ sid ≤ c.sessionCounter)
  ss_range : ∀ id sid, mLookup id c.signerSession = some sid →
    1 ≤ sid ∧ sid ≤ c.sessionCounter
  msg_eq : ∀ sid sess, mLookup sid c.session = some sess →
    sess.signingPackage.message = c.message
  members_card : ∀ sid sess, mLookup sid c.session = some sess →
    ((mKeys sess.signatureShares).toFinset ∪ (boundTo c sid).toFinset).card = c.minSigners
  not_responsive : ∀ id sid sess, mLookup id c.signerSession = some sid →
    mLookup sid c.session = some sess → id ∉ mKeys sess.signatureShares →
    id ∉ c.responsiveSigners
  latest_bound : ∀ sess, mLookup c.sessionCounter c.session = some sess →
    ∀ id ∈ mKeys sess.signatureShares, mLookup id c.signerSession = some c.sessionCounter
  trap : ∀ sid sess, mLookup sid c.session = some sess →
    ∃ id, mLookup id c.signerSession = some sid ∧ id ∉ c.responsiveSigners ∧
      (id ∉ mKeys sess.signatureShares ∨
        (mKeys sess.signatureShares).length = c.minSigners)

/-- Precondition for entering lines 166-207 of `Coordinator::receive`
(`registerAndOpen`) with signer `identifier`: the invariant fields that are
still intact at that point, plus what is known about `identifier` (its share,
if it was bound to a session, has just been recorded there) and a slightly
strengthened trap property whose witnesses avoid `identifier`. -/
structure OpenPre (c : Coordinator Sh Cm Sg VS VK M) (identifier : Nat) : Prop where
  two_le_min : 2 ≤ c.minSigners
  min_le_max : c.minSigners ≤ c.maxSigners
  resp_nodup : c.responsiveSigners.Nodup
  ss_nodup : (mKeys c.signerSession).Nodup
  sess_nodup : (mKeys c.session).Nodup
  shares_nodup : ∀ sid sess, mLookup sid c.session = some sess →
    (mKeys sess.signatureShares).Nodup
  resp_latest : ∀ id ∈ c.responsiveSigners, id ∈ mKeys c.latestSigningCommitments
  resp_lt : c.responsiveSigners.length < c.minSigners
  sess_dom : ∀ sid, sid ∈ mKeys c.session ↔ (1 ≤ sid ∧ sid ≤ c.sessionCounter)
  ss_range : ∀ id sid, mLookup id c.signerSession = some sid →
    1 ≤ sid ∧ sid ≤ c.sessionCounter
  msg_eq : ∀ sid sess, mLookup sid c.session = some sess →
    sess.signingPackage.message = c.message
  members_card : ∀ sid sess, mLookup sid c.session = some sess →
    ((mKeys sess.signatureShares).toFinset ∪ (boundTo c sid).toFinset).card = c.minSigners
  not_responsive : ∀ id sid sess, mLookup id c.signerSession = some sid →
    mLookup sid c.session = some sess → id ∉ mKeys sess.signatureShares →
    id ∉ c.responsiveSigners
  latest_bound : ∀ sess, mLookup c.sessionCounter c.session = some sess →
    ∀ id ∈ mKeys sess.signatureShares, mLookup id c.signerSession = some c.sessionCounter
  id_not_resp : identifier ∉ c.responsiveSigners
  id_submitted : ∀ sid sess, mLookup identifier c.signerSession = some sid →
    mLookup sid c.session = some sess → identifier ∈ mKeys sess.signatureShares
  trap' : ∀ sid sess, mLookup sid c.session = some sess →
    ∃ w, mLookup w c.signerSession = some sid ∧ w ∉ c.responsiveSigners ∧
      w ≠ identifier ∧
      (w ∉ mKeys sess.signatureShares ∨
        (mKeys sess.signatureShares).length = c.minSigners)

end Invariant

section Fixtures

/-- Trivial instantiation of the FROST primitives over unit payload types:
share verification always succeeds and aggregation returns the unit
signature. -/
def unitPrimitives : FrostPrimitives Unit Unit Unit Unit Unit Unit where
  verifySignatureShare := fun _ _ _ _ _ => .ok ()
  aggregate := fun _ _ _ => .ok ()
  verifySignature := fun _ _ _ => .ok ()

/-- Trivial instantiation of the DKG primitives over unit payload types. -/
def unitDkgPrimitives : DkgPrimitives Unit Unit Unit Unit Unit where
  coefficientCount := fun _ => 2
  verifyProofOfKnowledge := fun _ _ => .ok ()
  verifySecretShare := fun _ _ _ => .ok ()
  part3 := fun _ _ _ => .ok ((), ())

/-- A public key package with verifying shares for signers 1, 2, 3. -/
def pkp3 : PublicKeyPackage Unit Unit :=
  { verifyingShares := [(1, ()), (2, ()), (3, ())], verifyingKey := () }

/-- The coordinator produced by `Coordinator::new(3, 2, pkp3, ())`. -/
def coord0 : Coordinator Unit Unit Unit Unit Unit Unit :=
  { maxSigners := 3
    minSigners := 2
    publicKeyPackage := pkp3
    message := ()
    responsiveSigners := []
    maliciousSigners := []
    latestSigningCommitments := []
    sessionCounter := 0
    signerSession := []
    session := [] }

/-- A `receive` event carrying only a fresh commitment. -/
def commitEvent (identifier : Nat) : ReceiveEvent Unit Unit :=
  { identifier := identifier, signatureShare := none, signingCommitments := () }

/-- A `receive` event carrying a signature share and a fresh commitment. -/
def shareEvent (identifier : Nat) : ReceiveEvent Unit Unit :=
  { identifier := identifier, signatureShare := some (), signingCommitments := () }

/-- A reachable coordinator state in which signer 1 is marked malicious
(it sent two commitments in a row). -/
def coordMal : Coordinator Unit Unit Unit Unit Unit Unit :=
  runReceives unitPrimitives coord0 [commitEvent 1, commitEvent 1]

/-- The trusted third party produced by `TrustedThirdParty::new(2, 2, [1, 2])`. -/
def ttp0 : TrustedThirdParty Unit Unit :=
  { maxSigners := 2
    minSigners := 2
    participants := [1, 2]
    participantsSet := [1, 2]
    round1Packages := []
    round2Packages := []
    round2ParticipantsSet := []
    round2CulpritsSet := [] }

/-- A trusted third party holding the round-1 package of participant 2 and the
round-2 package that 2 sent to 1, ready for culprit attribution. -/
def ttp8 : TrustedThirdParty Unit Unit :=
  { maxSigners := 2
    minSigners := 2
    participants := [1, 2]
    participantsSet := [1, 2]
    round1Packages := [(2, ())]
    round2Packages := [(1, [(2, ())])]
    round2ParticipantsSet := []
    round2CulpritsSet := [] }

/-- A DKG participant (3 signers) that stashed an empty round-1 package map,
exposing the shape-validation error of `receive_round2_packages`. -/
def part9 : Participant Unit Unit Unit Unit :=
  { identifier := 1
    maxSigners := 3
    round1SecretPackage := none
    round1Package := none
    round2SecretPackage := some ()
    round2Packages := none
    round1Packages := some []
    round2CulpritsSet := none }

end Fixtures

theorem mLookup_mInsert_self {V : Type} (k : Nat) (v : V) (m : Mp V) :
    mLookup k (mInsert k v m) = some v := by
  induction m with
  | nil => simp [mInsert, mLookup]
  | cons hd tl ih =>
    by_cases h : k = hd.1
    · simp [mInsert, mLookup, h]
    · simp [mInsert, mLookup, h, ih]

theorem mLookup_mInsert_ne {V : Type} {k k' : Nat} (v : V) (m : Mp V) (h : k ≠ k') :
    mLookup k (mInsert k' v m) = mLookup k m := by
  induction m with
  | nil => simp [mInsert, mLookup, h]
  | cons hd tl ih =>
    by_cases h2 : k' = hd.1
    · subst h2
      simp [mInsert, mLookup, h]
    · by_cases h3 : k = hd.1
      · simp [mInsert, mLookup, h2, h3]
      · simp [mInsert, mLookup, h2, h3, ih]

theorem mem_mKeys_of_mLookup {V : Type} {k : Nat} {v : V} {m : Mp V}
    (h : mLookup k m = some v) : k ∈ mKeys m := by
  induction m with
  | nil => simp [mLookup] at h
  | cons hd tl ih =>
    by_cases h2 : k = hd.1
    · simp [mKeys, h2]
    · simp [mLookup, h2] at h
      simp [mKeys] at ih ⊢
      right
      exact ih h

theorem mLookup_isSome_iff {V : Type} {k : Nat} {m : Mp V} :
    (mLookup k m).isSome = true ↔ k ∈ mKeys m := by
  induction m with
  | nil => simp [mLookup, mKeys]
  | cons hd tl ih =>
    by_cases h2 : k = hd.1
    · simp [mLookup, mKeys, h2]
    · simp [mLookup, mKeys, h2, ih]

theorem mLookup_eq_none_of_not_mem {V : Type} {k : Nat} {m : Mp V}
    (h : k ∉ mKeys m) : mLookup k m = none := by
  cases hl : mLookup k m with
  | none => rfl
  | some v => exact absurd (mem_mKeys_of_mLookup hl) h

theorem mKeys_cons {V : Type} (p : Nat × V) (m : Mp V) :
    mKeys (p :: m) = p.1 :: mKeys m := rfl

theorem mKeys_mInsert_of_mem {V : Type} {k : Nat} (v : V) {m : Mp V}
    (h : k ∈ mKeys m) : mKeys (mInsert k v m) = mKeys m := by
  induction m with
  | nil => simp [mKeys] at h
  | cons hd tl ih =>
    rw [mKeys_cons, List.mem_cons] at h
    by_cases h2 : k = hd.1
    · simp [mInsert, mKeys_cons, h2]
    · have h3 : k ∈ mKeys tl := h.resolve_left h2
      simp [mInsert, h2, mKeys_cons, ih h3]

theorem mKeys_mInsert_of_not_mem {V : Type} {k : Nat} (v : V) {m : Mp V}
    (h : k ∉ mKeys m) : mKeys (mInsert k v m) = mKeys m ++ [k] := by
  induction m with
  | nil => simp [mInsert, mKeys]
  | cons hd tl ih =>
    rw [mKeys_cons, List.mem_cons] at h
    push_neg at h
    simp [mInsert, h.1, mKeys_cons, ih h.2]

theorem mem_mKeys_mInsert {V : Type} {a k : Nat} {v : V} {m : Mp V} :
    a ∈ mKeys (mInsert k v m) ↔ a = k ∨ a ∈ mKeys m := by
  by_cases h : k ∈ mKeys m
  · rw [mKeys_mInsert_of_mem v h]
    constructor
    · exact Or.inr
    · rintro (rfl | ha)
      · exact h
      · exact ha
  · rw [mKeys_mInsert_of_not_mem v h]
    simp [or_comm]

theorem mKeys_mInsert_nodup {V : Type} {k : Nat} (v : V) {m : Mp V}
    (h : (mKeys m).Nodup) : (mKeys (mInsert k v m)).Nodup := by
  by_cases h2 : k ∈ mKeys m
  · rw [mKeys_mInsert_of_mem v h2]
    exact h
  · rw [mKeys_mInsert_of_not_mem v h2]
    rw [List.nodup_append]
    refine ⟨h, List.nodup_singleton k, ?_⟩
    intro a ha hb
    rw [List.mem_singleton] at hb
    subst hb
    exact h2 ha

theorem length_mInsert_of_mem {V : Type} {k : Nat} (v : V) {m : Mp V}
    (h : k ∈ mKeys m) : (mInsert k v m).length = m.length := by
  have := mKeys_mInsert_of_mem v h
  have h1 : (mKeys (mInsert k v m)).length = (mKeys m).length := by rw [this]
  simpa [mKeys] using h1

theorem length_mInsert_of_not_mem {V : Type} {k : Nat} (v : V) {m : Mp V}
    (h : k ∉ mKeys m) : (mInsert k v m).length = m.length + 1 := by
  have := mKeys_mInsert_of_not_mem v h
  have h1 : (mKeys (mInsert k v m)).length = (mKeys m ++ [k]).length := by rw [this]
  simpa [mKeys] using h1

theorem length_mKeys {V : Type} (m : Mp V) : (mKeys m).length = m.length := by
  simp [mKeys]

theorem toFinset_mKeys_mInsert {V : Type} (k : Nat) (v : V) (m : Mp V) :
    (mKeys (mInsert k v m)).toFinset = insert k (mKeys m).toFinset := by
  ext a
  simp [mem_mKeys_mInsert]

theorem mem_sInsert {a k : Nat} {s : List Nat} : a ∈ sInsert k s ↔ a = k ∨ a ∈ s := by
  by_cases h : k ∈ s
  · simp only [sInsert, if_pos h]
    constructor
    · exact Or.inr
    · rintro (rfl | ha)
      · exact h
      · exact ha
  · simp [sInsert, if_neg h]

theorem sInsert_nodup {k : Nat} {s : List Nat} (h : s.Nodup) : (sInsert k s).Nodup := by
  by_cases h2 : k ∈ s
  · simpa [sInsert, if_pos h2] using h
  · simpa [sInsert, if_neg h2, h2] using h

theorem length_sInsert_of_not_mem {k : Nat} {s : List Nat} (h : k ∉ s) :
    (sInsert k s).length = s.length + 1 := by
  simp [sInsert, if_neg h]

theorem toFinset_sInsert (k : Nat) (s : List Nat) :
    (sInsert k s).toFinset = insert k s.toFinset := by
  ext a
  simp [mem_sInsert]

theorem mLookup_foldl_mInsert {V : Type} (v : V) (l : List Nat) (m : Mp V) (x : Nat) :
    mLookup x (l.foldl (fun m id => mInsert id v m) m) =
      if x ∈ l then some v else mLookup x m := by
  induction l generalizing m with
  | nil => simp
  | cons a l ih =>
    rw [List.foldl_cons, ih]
    by_cases hl : x ∈ l
    · simp [hl]
    · by_cases ha : x = a
      · subst ha
        simp [hl, mLookup_mInsert_self]
      · simp [hl, ha, mLookup_mInsert_ne _ _ ha]

theorem mem_mKeys_foldl_mInsert {V : Type} (v : V) (l : List Nat) (m : Mp V) (x : Nat) :
    x ∈ mKeys (l.foldl (fun m id => mInsert id v m) m) ↔ x ∈ l ∨ x ∈ mKeys m := by
  rw [← mLookup_isSome_iff, mLookup_foldl_mInsert]
  by_cases hl : x ∈ l
  · simp [hl]
  · simp [hl, mLookup_isSome_iff]

theorem mKeys_foldl_mInsert_nodup {V : Type} (v : V) (l : List Nat) {m : Mp V}
    (h : (mKeys m).Nodup) :
    (mKeys (l.foldl (fun m id => mInsert id v m) m)).Nodup := by
  induction l generalizing m with
  | nil => exact h
  | cons a l ih => exact ih (mKeys_mInsert_nodup _ h)

section CoordinatorLemmas

variable {Sh Cm Sg VS VK M : Type}
variable {P : FrostPrimitives Sh Cm Sg VS VK M}
variable {c : Coordinator Sh Cm Sg VS VK M}

theorem mem_boundTo {a sid : Nat} :
    a ∈ boundTo c sid ↔ mLookup a c.signerSession = some sid := by
  constructor
  · intro h
    rw [boundTo, List.mem_filter] at h
    exact of_decide_eq_true h.2
  · intro h
    rw [boundTo, List.mem_filter]
    exact ⟨mem_mKeys_of_mLookup h, decide_eq_true h⟩

theorem boundTo_nodup (h : (mKeys c.signerSession).Nodup) (sid : Nat) :
    (boundTo c sid).Nodup :=
  h.filter _

theorem markMalicious_snd (identifier : Nat) (e : MaliciousSignerError) :
    (c.markMalicious identifier e).2 =
      { c with maliciousSigners := mInsert identifier e c.maliciousSigners } := by
  rw [Coordinator.markMalicious]
  by_cases h : (mInsert identifier e c.maliciousSigners).length >
      c.maxSigners - c.minSigners
  · simp [h]
  · simp [h]

theorem markMalicious_fst (identifier : Nat) (e : MaliciousSignerError) :
    (c.markMalicious identifier e).1 =
      if (mInsert identifier e c.maliciousSigners).length > c.maxSigners - c.minSigners
      then .tooManyMaliciousSigners else .maliciousSigner e := by
  rw [Coordinator.markMalicious]
  by_cases h : (mInsert identifier e c.maliciousSigners).length >
      c.maxSigners - c.minSigners
  · simp [h]
  · simp [h]

theorem receive_of_malicious {identifier : Nat} {e : MaliciousSignerError}
    (hm : mLookup identifier c.maliciousSigners = some e)
    (signatureShare : Option Sh) (signingCommitments : Cm) :
    Coordinator.receive P c identifier signatureShare signingCommitments =
      (.error (.maliciousSigner e), c) := by
  rw [Coordinator.receive, hm]

theorem receive_of_responsive {identifier : Nat}
    (hm : mLookup identifier c.maliciousSigners = none)
    (hr : identifier ∈ c.responsiveSigners)
    (signatureShare : Option Sh) (signingCommitments : Cm) :
    Coordinator.receive P c identifier signatureShare signingCommitments =
      (.error (c.markMalicious identifier .unsolicitedReply).1,
        (c.markMalicious identifier .unsolicitedReply).2) := by
  rw [Coordinator.receive, hm]
  simp [hr]

theorem receive_of_unbound {identifier : Nat}
    (hm : mLookup identifier c.maliciousSigners = none)
    (hr : identifier ∉ c.responsiveSigners)
    (hss : mLookup identifier c.signerSession = none)
    (signatureShare : Option Sh) (signingCommitments : Cm) :
    Coordinator.receive P c identifier signatureShare signingCommitments =
      c.registerAndOpen identifier signingCommitments := by
  rw [Coordinator.receive, hm]
  simp [hr, hss]

theorem receive_of_bound_no_share {identifier sessionId : Nat}
    {sess : Session Sh Cm M}
    (hm : mLookup identifier c.maliciousSigners = none)
    (hr : identifier ∉ c.responsiveSigners)
    (hss : mLookup identifier c.signerSession = some sessionId)
    (hsess : mLookup sessionId c.session = some sess)
    (signingCommitments : Cm) :
    Coordinator.receive P c identifier none signingCommitments =
      (.error (c.markMalicious identifier .invalidSignatureShare).1,
        (c.markMalicious identifier .invalidSignatureShare).2) := by
  rw [Coordinator.receive, hm]
  simp [hr, hss, hsess]

theorem receive_of_bound_bad_share {identifier sessionId : Nat}
    {sess : Session Sh Cm M} {share : Sh} {e : FrostError}
    (hm : mLookup identifier c.maliciousSigners = none)
    (hr : identifier ∉ c.responsiveSigners)
    (hss : mLookup identifier c.signerSession = some sessionId)
    (hsess : mLookup sessionId c.session = some sess)
    (hv : Coordinator.verificationResult P c identifier share sess = .error e)
    (signingCommitments : Cm) :
    Coordinator.receive P c identifier (some share) signingCommitments =
      (.error (c.markMalicious identifier .invalidSignatureShare).1,
        (c.markMalicious identifier .invalidSignatureShare).2) := by
  rw [Coordinator.receive, hm]
  simp [hr, hss, hsess, hv]

theorem receive_of_bound_finish {identifier sessionId : Nat}
    {sess : Session Sh Cm M} {share : Sh}
    (hm : mLookup identifier c.maliciousSigners = none)
    (hr : identifier ∉ c.responsiveSigners)
    (hss : mLookup identifier c.signerSession = some sessionId)
    (hsess : mLookup sessionId c.session = some sess)
    (hv : Coordinator.verificationResult P c identifier share sess = .ok ())
    (hlen : (mInsert identifier share sess.signatureShares).length = c.minSigners)
    (signingCommitments : Cm) :
    Coordinator.receive P c identifier (some share) signingCommitments =
      (Except.mapError RError.frost
        ((P.aggregate sess.signingPackage (mInsert identifier share sess.signatureShares)
          c.publicKeyPackage).map SessionStatus.finished),
      { c with session := (mInsert sessionId
          { sess with signatureShares := mInsert identifier share sess.signatureShares }
          c.session) }) := by
  rw [Coordinator.receive, hm]
  simp only [hr, if_false, Bool.false_eq_true, hss, Option.some_bind, hsess,
    Option.map_some', hv, hlen, if_true]
  cases P.aggregate sess.signingPackage (mInsert identifier share sess.signatureShares)
      c.publicKeyPackage with
  | error e => simp [Except.mapError, Except.map]
  | ok sg => simp [Except.mapError, Except.map]

theorem receive_of_bound_continue {identifier sessionId : Nat}
    {sess : Session Sh Cm M} {share : Sh}
    (hm : mLookup identifier c.maliciousSigners = none)
    (hr : identifier ∉ c.responsiveSigners)
    (hss : mLookup identifier c.signerSession = some sessionId)
    (hsess : mLookup sessionId c.session = some sess)
    (hv : Coordinator.verificationResult P c identifier share sess = .ok ())
    (hlen : (mInsert identifier share sess.signatureShares).length ≠ c.minSigners)
    (signingCommitments : Cm) :
    Coordinator.receive P c identifier (some share) signingCommitments =
      Coordinator.registerAndOpen
        { c with session := (mInsert sessionId
            { sess with signatureShares := mInsert identifier share sess.signatureShares }
            c.session) }
        identifier signingCommitments := by
  rw [Coordinator.receive, hm]
  simp [hr, hss, hsess, hv, hlen]

theorem registerAndOpen_eq_of_ne {identifier : Nat} (signingCommitments : Cm)
    (hne : (sInsert identifier c.responsiveSigners).length ≠ c.minSigners) :
    c.registerAndOpen identifier signingCommitments =
      (.ok .inProgress, { c with
        latestSigningCommitments :=
          mInsert identifier signingCommitments c.latestSigningCommitments
        responsiveSigners := sInsert identifier c.responsiveSigners }) := by
  rw [Coordinator.registerAndOpen]
  simp only []
  rw [if_neg hne]

theorem registerAndOpen_eq_of_eq {identifier : Nat} (signingCommitments : Cm)
    (heq : (sInsert identifier c.responsiveSigners).length = c.minSigners) :
    c.registerAndOpen identifier signingCommitments =
      (.ok (.started (sInsert identifier c.responsiveSigners)
        { signingCommitments := (sInsert identifier c.responsiveSigners).filterMap fun id =>
            (mLookup id (mInsert identifier signingCommitments
              c.latestSigningCommitments)).map fun sc => (id, sc)
          message := c.message }),
      { c with
        latestSigningCommitments :=
          mInsert identifier signingCommitments c.latestSigningCommitments
        sessionCounter := c.sessionCounter + 1
        signerSession := (sInsert identifier c.responsiveSigners).foldl
          (fun m id => mInsert id (c.sessionCounter + 1) m) c.signerSession
        session := mInsert (c.sessionCounter + 1)
          { signingPackage :=
              { signingCommitments :=
                  (sInsert identifier c.responsiveSigners).filterMap fun id =>
                    (mLookup id (mInsert identifier signingCommitments
                      c.latestSigningCommitments)).map fun sc => (id, sc)
                message := c.message }
            signatureShares := [] } c.session
        responsiveSigners := [] }) := by
  rw [Coordinator.registerAndOpen]
  simp only []
  rw [if_pos heq]

theorem inv_registerAndOpen {identifier : Nat} (signingCommitments : Cm)
    (h : OpenPre c identifier) :
    Inv (c.registerAndOpen identifier signingCommitments).2 := by
  by_cases hopen : (sInsert identifier c.responsiveSigners).length = c.minSigners
  · rw [registerAndOpen_eq_of_eq signingCommitments hopen]
    set k := c.sessionCounter with hk
    set rNew := sInsert identifier c.responsiveSigners with hrNew
    set latest' := mInsert identifier signingCommitments c.latestSigningCommitments
      with hlatest
    set sp : SigningPackage Cm M :=
      { signingCommitments := rNew.filterMap fun id =>
          (mLookup id latest').map fun sc => (id, sc)
        message := c.message } with hsp
    set sessNew : Session Sh Cm M := { signingPackage := sp, signatureShares := [] }
      with hsessNew
    set ss' := rNew.foldl (fun m id => mInsert id (k + 1) m) c.signerSession with hss'
    set c2 : Coordinator Sh Cm Sg VS VK M := { c with
      latestSigningCommitments := latest'
      sessionCounter := k + 1
      signerSession := ss'
      session := mInsert (k + 1) sessNew c.session
      responsiveSigners := [] } with hc2
    have hrNodup : rNew.Nodup := sInsert_nodup h.resp_nodup
    have hfresh : (k + 1) ∉ mKeys c.session := by
      intro hmem
      have := (h.sess_dom (k + 1)).mp hmem
      omega
    have hlookNew : mLookup (k + 1) c2.session = some sessNew :=
      mLookup_mInsert_self _ _ _
    have hlookOld : ∀ sid, sid ≠ k + 1 → mLookup sid c2.session = mLookup sid c.session :=
      fun sid hne => mLookup_mInsert_ne _ _ hne
    have hssLook : ∀ x, mLookup x c2.signerSession =
        if x ∈ rNew then some (k + 1) else mLookup x c.signerSession :=
      fun x => mLookup_foldl_mInsert _ _ _ _
    have hOldNe : ∀ sid (sess : Session Sh Cm M), mLookup sid c.session = some sess →
        sid ≠ k + 1 := by
      intro sid sess hs hcontra
      exact hfresh (hcontra ▸ mem_mKeys_of_mLookup hs)
    refine ⟨h.two_le_min, h.min_le_max, List.nodup_nil,
      mKeys_foldl_mInsert_nodup _ _ h.ss_nodup, mKeys_mInsert_nodup _ h.sess_nodup,
      ?_, ?_, ?_, ?_, ?_, ?_, ?_, ?_, ?_, ?_⟩
    · -- shares_nodup
      intro sid sess hs
      by_cases hsid : sid = k + 1
      · subst hsid
        rw [hlookNew] at hs
        cases hs
        exact List.nodup_nil
      · rw [hlookOld sid hsid] at hs
        exact h.shares_nodup sid sess hs
    · -- resp_latest
      intro id hid
      cases hid
    · -- resp_lt
      have := h.two_le_min
      show (List.length [] : Nat) < c.minSigners
      simp only [List.length_nil]
      omega
    · -- sess_dom
      intro sid
      rw [show c2.session = mInsert (k + 1) sessNew c.session from rfl,
        mem_mKeys_mInsert, h.sess_dom]
      show sid = k + 1 ∨ 1 ≤ sid ∧ sid ≤ k ↔ 1 ≤ sid ∧ sid ≤ k + 1
      omega
    · -- ss_range
      intro x sid hx
      rw [hssLook x] at hx
      by_cases hmem : x ∈ rNew
      · rw [if_pos hmem] at hx
        cases hx
        show 1 ≤ k + 1 ∧ k + 1 ≤ k + 1
        omega
      · rw [if_neg hmem] at hx
        have h2 := h.ss_range x sid hx
        show 1 ≤ sid ∧ sid ≤ k + 1
        omega
    · -- msg_eq
      intro sid sess hs
      by_cases hsid : sid = k + 1
      · subst hsid
        rw [hlookNew] at hs
        cases hs
        rfl
      · rw [hlookOld sid hsid] at hs
        exact h.msg_eq sid sess hs
    · -- members_card
      intro sid sess hs
      by_cases hsid : sid = k + 1
      · subst hsid
        rw [hlookNew] at hs
        cases hs
        have hbt : (boundTo c2 (k + 1)).toFinset = rNew.toFinset := by
          ext a
          rw [List.mem_toFinset, List.mem_toFinset, mem_boundTo, hssLook a]
          by_cases hmem : a ∈ rNew
          · simp [hmem]
          · rw [if_neg hmem]
            constructor
            · intro hx
              have := h.ss_range a (k + 1) hx
              omega
            · intro hx
              exact absurd hx hmem
        show ((mKeys ([] : Mp Sh)).toFinset ∪ (boundTo c2 (k + 1)).toFinset).card
          = c.minSigners
        rw [show mKeys ([] : Mp Sh) = [] from rfl]
        rw [List.toFinset_nil, Finset.empty_union, hbt,
          List.toFinset_card_of_nodup hrNodup]
        exact hopen
      · rw [hlookOld sid hsid] at hs
        have hbt : (mKeys sess.signatureShares).toFinset ∪ (boundTo c2 sid).toFinset =
            (mKeys sess.signatureShares).toFinset ∪ (boundTo c sid).toFinset := by
          ext a
          simp only [Finset.mem_union, List.mem_toFinset, mem_boundTo]
          constructor
          · rintro (ha | ha)
            · exact Or.inl ha
            · rw [hssLook a] at ha
              by_cases hmem : a ∈ rNew
              · rw [if_pos hmem] at ha
                cases ha
                exact absurd rfl hsid
              · rw [if_neg hmem] at ha
                exact Or.inr ha
          · rintro (ha | ha)
            · exact Or.inl ha
            · by_cases hmem : a ∈ rNew
              · left
                rcases mem_sInsert.mp hmem with rfl | hmem2
                · exact h.id_submitted sid sess ha hs
                · by_contra hnk
                  exact h.not_responsive a sid sess ha hs hnk hmem2
              · right
                rw [hssLook a, if_neg hmem]
                exact ha
        rw [show c2.minSigners = c.minSigners from rfl, hbt]
        exact h.members_card sid sess hs
    · -- not_responsive
      intro x sid sess _ _ _
      exact List.not_mem_nil x
    · -- latest_bound
      intro sess hs
      rw [show c2.sessionCounter = k + 1 from rfl, hlookNew] at hs
      cases hs
      intro id hid
      cases hid
    · -- trap
      intro sid sess hs
      by_cases hsid : sid = k + 1
      · subst hsid
        rw [hlookNew] at hs
        cases hs
        have hne : rNew ≠ [] := by
          intro he
          rw [he] at hopen
          have := h.two_le_min
          simp at hopen
          omega
        obtain ⟨w, hw⟩ := List.exists_mem_of_ne_nil rNew hne
        refine ⟨w, ?_, List.not_mem_nil w, Or.inl (List.not_mem_nil w)⟩
        rw [hssLook w, if_pos hw]
      · rw [hlookOld sid hsid] at hs
        obtain ⟨w, hw1, hw2, hw3, hw4⟩ := h.trap' sid sess hs
        have hwn : w ∉ rNew := by
          intro hmem
          rcases mem_sInsert.mp hmem with rfl | hmem2
          · exact hw3 rfl
          · exact hw2 hmem2
        refine ⟨w, ?_, List.not_mem_nil w, hw4⟩
        rw [hssLook w, if_neg hwn]
        exact hw1
  · rw [registerAndOpen_eq_of_ne signingCommitments hopen]
    refine ⟨h.two_le_min, h.min_le_max, sInsert_nodup h.resp_nodup, h.ss_nodup,
      h.sess_nodup, h.shares_nodup, ?_, ?_, h.sess_dom, h.ss_range, h.msg_eq,
      h.members_card, ?_, h.latest_bound, ?_⟩
    · -- resp_latest
      intro x hx
      rcases mem_sInsert.mp hx with rfl | hx2
      · exact mem_mKeys_mInsert.mpr (Or.inl rfl)
      · exact mem_mKeys_mInsert.mpr (Or.inr (h.resp_latest x hx2))
    · -- resp_lt
      have hlen : (sInsert identifier c.responsiveSigners).length =
          c.responsiveSigners.length + 1 := length_sInsert_of_not_mem h.id_not_resp
      have := h.resp_lt
      show (sInsert identifier c.responsiveSigners).length < c.minSigners
      omega
    · -- not_responsive
      intro x sid sess hx hsess hxk hmem
      rcases mem_sInsert.mp hmem with rfl | hm2
      · exact hxk (h.id_submitted sid sess hx hsess)
      · exact h.not_responsive x sid sess hx hsess hxk hm2
    · -- trap
      intro sid sess hsess
      obtain ⟨w, hw1, hw2, hw3, hw4⟩ := h.trap' sid sess hsess
      refine ⟨w, hw1, ?_, hw4⟩
      intro hmem
      rcases mem_sInsert.mp hmem with rfl | hm2
      · exact hw3 rfl
      · exact hw2 hm2

theorem inv_markMalicious {identifier : Nat} {e : MaliciousSignerError} (h : Inv c) :
    Inv (c.markMalicious identifier e).2 := by
  rw [markMalicious_snd]
  exact ⟨h.two_le_min, h.min_le_max, h.resp_nodup, h.ss_nodup, h.sess_nodup,
    h.shares_nodup, h.resp_latest, h.resp_lt, h.sess_dom, h.ss_range, h.msg_eq,
    h.members_card, h.not_responsive, h.latest_bound, h.trap⟩

theorem inv_new {maxSigners minSigners : Nat} {publicKeyPackage : PublicKeyPackage VS VK}
    {message : M}
    (h : Coordinator.new maxSigners minSigners publicKeyPackage message =
      .ok (c : Coordinator Sh Cm Sg VS VK M)) : Inv c := by
  rw [Coordinator.new] at h
  by_cases h1 : minSigners < 2
  · rw [if_pos h1] at h
    cases h
  rw [if_neg h1] at h
  by_cases h2 : maxSigners < 2
  · rw [if_pos h2] at h
    cases h
  rw [if_neg h2] at h
  by_cases h3 : minSigners > maxSigners
  · rw [if_pos h3] at h
    cases h
  rw [if_neg h3] at h
  cases h
  refine ⟨?_, ?_, List.nodup_nil, List.nodup_nil, List.nodup_nil,
    ?_, ?_, ?_, ?_, ?_, ?_, ?_, ?_, ?_, ?_⟩
  · show 2 ≤ minSigners
    omega
  · show minSigners ≤ maxSigners
    omega
  · intro sid sess hs
    cases hs
  · intro id hid
    cases hid
  · show (List.length ([] : List Nat)) < minSigners
    simp only [List.length_nil]
    omega
  · intro sid
    constructor
    · intro hmem
      exact absurd hmem (List.not_mem_nil sid)
    · intro hmem
      have h0 : sid ≤ 0 := hmem.2
      have h1 : 1 ≤ sid := hmem.1
      exfalso
      omega
  · intro id sid hx
    cases hx
  · intro sid sess hs
    cases hs
  · intro sid sess hs
    cases hs
  · intro x sid sess hx
    cases hx
  · intro sess hs
    cases hs
  · intro sid sess hs
    cases hs

theorem inv_receive {identifier : Nat} (signatureShare : Option Sh)
    (signingCommitments : Cm) (h : Inv c) :
    Inv (Coordinator.receive P c identifier signatureShare signingCommitments).2 := by
  cases hm : mLookup identifier c.maliciousSigners with
  | some e =>
    rw [receive_of_malicious hm]
    exact h
  | none =>
  by_cases hr : identifier ∈ c.responsiveSigners
  · rw [receive_of_responsive hm hr]
    exact inv_markMalicious h
  cases hss : mLookup identifier c.signerSession with
  | none =>
    rw [receive_of_unbound hm hr hss]
    refine inv_registerAndOpen signingCommitments
      ⟨h.two_le_min, h.min_le_max, h.resp_nodup, h.ss_nodup, h.sess_nodup,
        h.shares_nodup, h.resp_latest, h.resp_lt, h.sess_dom, h.ss_range, h.msg_eq,
        h.members_card, h.not_responsive, h.latest_bound, hr, ?_, ?_⟩
    · intro sid sess hx
      rw [hss] at hx
      cases hx
    · intro sid sess hsess
      obtain ⟨w, hw1, hw2, hw4⟩ := h.trap sid sess hsess
      refine ⟨w, hw1, hw2, ?_, hw4⟩
      intro hcontra
      subst hcontra
      rw [hss] at hw1
      cases hw1
  | some sessionId =>
  cases hsess : mLookup sessionId c.session with
  | none =>
    exfalso
    have hb := h.ss_range identifier sessionId hss
    have := (h.sess_dom sessionId).mpr hb
    rw [← mLookup_isSome_iff, hsess] at this
    cases this
  | some sess =>
  have hbound : identifier ∈ boundTo c sessionId := mem_boundTo.mpr hss
  cases signatureShare with
  | none =>
    rw [receive_of_bound_no_share hm hr hss hsess]
    exact inv_markMalicious h
  | some share =>
  cases hv : Coordinator.verificationResult P c identifier share sess with
  | error e =>
    rw [receive_of_bound_bad_share hm hr hss hsess hv]
    exact inv_markMalicious h
  | ok u =>
  cases u
  set shares' := mInsert identifier share sess.signatureShares with hshares
  set sess' : Session Sh Cm M := { sess with signatureShares := shares' } with hsess'
  set c1 : Coordinator Sh Cm Sg VS VK M :=
    { c with session := mInsert sessionId sess' c.session } with hc1
  have hsidmem : sessionId ∈ mKeys c.session := mem_mKeys_of_mLookup hsess
  have hsessKeys : mKeys c1.session = mKeys c.session := mKeys_mInsert_of_mem _ hsidmem
  have hlookSid : mLookup sessionId c1.session = some sess' := mLookup_mInsert_self _ _ _
  have hlookOld : ∀ sid, sid ≠ sessionId → mLookup sid c1.session = mLookup sid c.session :=
    fun sid hne => mLookup_mInsert_ne _ _ hne
  have hkeysShares : ∀ a, a ∈ mKeys shares' ↔ a = identifier ∨
      a ∈ mKeys sess.signatureShares := fun a => mem_mKeys_mInsert
  have hbt : ∀ sid, boundTo c1 sid = boundTo c sid := fun _ => rfl
  have hInv1base : ∀ sid sess2, mLookup sid c1.session = some sess2 →
      ((mKeys sess2.signatureShares).toFinset ∪ (boundTo c1 sid).toFinset).card =
        c.minSigners := by
    intro sid sess2 hs2
    by_cases hsid : sid = sessionId
    · subst hsid
      rw [hlookSid] at hs2
      cases hs2
      have hins : (mKeys shares').toFinset =
          insert identifier (mKeys sess.signatureShares).toFinset :=
        toFinset_mKeys_mInsert _ _ _
      rw [show sess'.signatureShares = shares' from rfl, hins, hbt]
      rw [Finset.insert_union]
      rw [Finset.insert_eq_self.mpr
        (Finset.mem_union_right _ (List.mem_toFinset.mpr hbound))]
      exact h.members_card sid sess hsess
    · rw [hlookOld sid hsid] at hs2
      rw [hbt]
      exact h.members_card sid sess2 hs2
  have hInv1nr : ∀ id sid sess2, mLookup id c1.signerSession = some sid →
      mLookup sid c1.session = some sess2 → id ∉ mKeys sess2.signatureShares →
      id ∉ c1.responsiveSigners := by
    intro x sid sess2 hx hs2 hxk
    by_cases hsid : sid = sessionId
    · subst hsid
      rw [hlookSid] at hs2
      cases hs2
      have hxk2 : x ∉ mKeys sess.signatureShares := by
        intro hc
        exact hxk ((hkeysShares x).mpr (Or.inr hc))
      exact h.not_responsive x sid sess hx hsess hxk2
    · rw [hlookOld sid hsid] at hs2
      exact h.not_responsive x sid sess2 hx hs2 hxk
  have hInv1sn : ∀ sid sess2, mLookup sid c1.session = some sess2 →
      (mKeys sess2.signatureShares).Nodup := by
    intro sid sess2 hs2
    by_cases hsid : sid = sessionId
    · subst hsid
      rw [hlookSid] at hs2
      cases hs2
      exact mKeys_mInsert_nodup _ (h.shares_nodup sid sess hsess)
    · rw [hlookOld sid hsid] at hs2
      exact h.shares_nodup sid sess2 hs2
  have hInv1msg : ∀ sid sess2, mLookup sid c1.session = some sess2 →
      sess2.signingPackage.message = c.message := by
    intro sid sess2 hs2
    by_cases hsid : sid = sessionId
    · subst hsid
      rw [hlookSid] at hs2
      cases hs2
      exact h.msg_eq sid sess hsess
    · rw [hlookOld sid hsid] at hs2
      exact h.msg_eq sid sess2 hs2
  have hInv1dom : ∀ sid, sid ∈ mKeys c1.session ↔ 1 ≤ sid ∧ sid ≤ c.sessionCounter := by
    intro sid
    rw [hsessKeys]
    exact h.sess_dom sid
  have hInv1lb : ∀ sess2, mLookup c1.sessionCounter c1.session = some sess2 →
      ∀ id ∈ mKeys sess2.signatureShares,
        mLookup id c1.signerSession = some c1.sessionCounter := by
    intro sess2 hs2 x hx
    show mLookup x c.signerSession = some c.sessionCounter
    by_cases hsid : c.sessionCounter = sessionId
    · rw [show c1.sessionCounter = c.sessionCounter from rfl, hsid, hlookSid] at hs2
      cases hs2
      rcases (hkeysShares x).mp hx with rfl | hx2
      · rw [hsid]
        exact hss
      · exact h.latest_bound sess (hsid ▸ hsess) x hx2
    · rw [show c1.sessionCounter = c.sessionCounter from rfl, hlookOld _ hsid] at hs2
      exact h.latest_bound sess2 hs2 x hx
  by_cases hlen : shares'.length = c.minSigners
  · rw [receive_of_bound_finish hm hr hss hsess hv hlen]
    show Inv c1
    have hInv1 : Inv c1 := by
      refine ⟨h.two_le_min, h.min_le_max, h.resp_nodup, h.ss_nodup, ?_, hInv1sn,
        h.resp_latest, h.resp_lt, hInv1dom, h.ss_range, hInv1msg, hInv1base,
        hInv1nr, hInv1lb, ?_⟩
      · show (mKeys c1.session).Nodup
        rw [hsessKeys]
        exact h.sess_nodup
      · -- trap
        intro sid sess2 hs2
        by_cases hsid : sid = sessionId
        · subst hsid
          rw [hlookSid] at hs2
          cases hs2
          obtain ⟨w, hw1, hw2, _⟩ := h.trap sid sess hsess
          refine ⟨w, hw1, hw2, Or.inr ?_⟩
          rw [show sess'.signatureShares = shares' from rfl]
          rw [length_mKeys]
          exact hlen
        · rw [hlookOld sid hsid] at hs2
          exact h.trap sid sess2 hs2
    exact hInv1
  · rw [receive_of_bound_continue hm hr hss hsess hv hlen]
    show Inv (c1.registerAndOpen identifier signingCommitments).2
    refine inv_registerAndOpen signingCommitments
      ⟨h.two_le_min, h.min_le_max, h.resp_nodup, h.ss_nodup, ?_, hInv1sn,
        h.resp_latest, h.resp_lt, hInv1dom, h.ss_range, hInv1msg, hInv1base,
        hInv1nr, hInv1lb, hr, ?_, ?_⟩
    · show (mKeys c1.session).Nodup
      rw [hsessKeys]
      exact h.sess_nodup
    · -- id_submitted
      intro sid sess2 hx hs2
      rw [show c1.signerSession = c.signerSession from rfl, hss] at hx
      cases hx
      rw [hlookSid] at hs2
      cases hs2
      exact (hkeysShares identifier).mpr (Or.inl rfl)
    · -- the trap condition
      intro sid sess2 hs2
      by_cases hsid : sid = sessionId
      · subst hsid
        rw [hlookSid] at hs2
        cases hs2
        -- find a member of the session bound to it whose share is still missing
        have hcard := h.members_card sid sess hsess
        have hsub : (mKeys shares').toFinset ⊆
            (mKeys sess.signatureShares).toFinset ∪ (boundTo c sid).toFinset := by
          intro a ha
          rw [List.mem_toFinset] at ha
          rcases (hkeysShares a).mp ha with rfl | ha2
          · exact Finset.mem_union_right _ (List.mem_toFinset.mpr hbound)
          · exact Finset.mem_union_left _ (List.mem_toFinset.mpr ha2)
        have hlt : (mKeys shares').toFinset.card < c.minSigners := by
          have hle := Finset.card_le_card hsub
          rw [hcard] at hle
          have hne : (mKeys shares').toFinset.card = shares'.length := by
            rw [List.toFinset_card_of_nodup
              (mKeys_mInsert_nodup _ (h.shares_nodup sid sess hsess))]
            exact length_mKeys shares'
          omega
        have hne2 : (mKeys shares').toFinset ≠
            (mKeys sess.signatureShares).toFinset ∪ (boundTo c sid).toFinset := by
          intro he
          rw [he, hcard] at hlt
          exact lt_irrefl _ hlt
        obtain ⟨w, hwmem, hwnot⟩ :=
          Finset.exists_of_ssubset (Finset.ssubset_iff_subset_ne.mpr ⟨hsub, hne2⟩)
        have hwnotk : w ∉ mKeys shares' := fun hc =>
          hwnot (List.mem_toFinset.mpr hc)
        have hwb : w ∈ boundTo c sid := by
          rcases Finset.mem_union.mp hwmem with hw | hw
          · exfalso
            rw [List.mem_toFinset] at hw
            exact hwnotk ((hkeysShares w).mpr (Or.inr hw))
          · exact List.mem_toFinset.mp hw
        have hwss : mLookup w c.signerSession = some sid := mem_boundTo.mp hwb
        have hwnk : w ∉ mKeys sess.signatureShares := fun hc =>
          hwnotk ((hkeysShares w).mpr (Or.inr hc))
        refine ⟨w, hwss, h.not_responsive w sid sess hwss hsess hwnk, ?_, ?_⟩
        · intro hcontra
          subst hcontra
          exact hwnotk ((hkeysShares w).mpr (Or.inl rfl))
        · left
          exact hwnotk
      · rw [hlookOld sid hsid] at hs2
        obtain ⟨w, hw1, hw2, hw4⟩ := h.trap sid sess2 hs2
        refine ⟨w, hw1, hw2, ?_, hw4⟩
        intro hcontra
        subst hcontra
        rw [hss] at hw1
        cases hw1
        exact hsid rfl

theorem inv_runReceives (evs : List (ReceiveEvent Sh Cm)) (h : Inv c) :
    Inv (runReceives P c evs) := by
  induction evs generalizing c with
  | nil => exact h
  | cons ev rest ih =>
    rw [runReceives]
    exact ih (inv_receive ev.signatureShare ev.signingCommitments h)

theorem receive_params (identifier : Nat) (signatureShare : Option Sh)
    (signingCommitments : Cm) :
    (Coordinator.receive P c identifier signatureShare signingCommitments).2.maxSigners =
        c.maxSigners ∧
      (Coordinator.receive P c identifier signatureShare signingCommitments).2.minSigners =
        c.minSigners ∧
      (Coordinator.receive P c identifier signatureShare
        signingCommitments).2.publicKeyPackage = c.publicKeyPackage ∧
      (Coordinator.receive P c identifier signatureShare signingCommitments).2.message =
        c.message := by
  have hreg : ∀ (d : Coordinator Sh Cm Sg VS VK M) (cm : Cm),
      (d.registerAndOpen identifier cm).2.maxSigners = d.maxSigners ∧
      (d.registerAndOpen identifier cm).2.minSigners = d.minSigners ∧
      (d.registerAndOpen identifier cm).2.publicKeyPackage = d.publicKeyPackage ∧
      (d.registerAndOpen identifier cm).2.message = d.message := by
    intro d cm
    by_cases hopen : (sInsert identifier d.responsiveSigners).length = d.minSigners
    · rw [registerAndOpen_eq_of_eq cm hopen]
      exact ⟨rfl, rfl, rfl, rfl⟩
    · rw [registerAndOpen_eq_of_ne cm hopen]
      exact ⟨rfl, rfl, rfl, rfl⟩
  cases hm : mLookup identifier c.maliciousSigners with
  | some e =>
    rw [receive_of_malicious hm]
    exact ⟨rfl, rfl, rfl, rfl⟩
  | none =>
  by_cases hr : identifier ∈ c.responsiveSigners
  · rw [receive_of_responsive hm hr]
    rw [markMalicious_snd]
    exact ⟨rfl, rfl, rfl, rfl⟩
  cases hss : mLookup identifier c.signerSession with
  | none =>
    rw [receive_of_unbound hm hr hss]
    exact hreg c signingCommitments
  | some sessionId =>
  cases hsess : mLookup sessionId c.session with
  | none =>
    rw [Coordinator.receive, hm]
    simp only [hr, if_false, Bool.false_eq_true, hss, Option.some_bind, hsess,
      Option.map_none']
    exact hreg c signingCommitments
  | some sess =>
  cases signatureShare with
  | none =>
    rw [receive_of_bound_no_share hm hr hss hsess]
    rw [markMalicious_snd]
    exact ⟨rfl, rfl, rfl, rfl⟩
  | some share =>
  cases hv : Coordinator.verificationResult P c identifier share sess with
  | error e =>
    rw [receive_of_bound_bad_share hm hr hss hsess hv]
    rw [markMalicious_snd]
    exact ⟨rfl, rfl, rfl, rfl⟩
  | ok u =>
  cases u
  by_cases hlen : (mInsert identifier share sess.signatureShares).length = c.minSigners
  · rw [receive_of_bound_finish hm hr hss hsess hv hlen]
    exact ⟨rfl, rfl, rfl, rfl⟩
  · rw [receive_of_bound_continue hm hr hss hsess hv hlen]
    exact hreg _ signingCommitments

theorem runReceives_params (evs : List (ReceiveEvent Sh Cm)) :
    (runReceives P c evs).maxSigners = c.maxSigners ∧
      (runReceives P c evs).minSigners = c.minSigners ∧
      (runReceives P c evs).publicKeyPackage = c.publicKeyPackage ∧
      (runReceives P c evs).message = c.message := by
  induction evs generalizing c with
  | nil => exact ⟨rfl, rfl, rfl, rfl⟩
  | cons ev rest ih =>
    rw [runReceives]
    obtain ⟨ih1, ih2, ih3, ih4⟩ :=
      ih (c := (Coordinator.receive P c ev.identifier ev.signatureShare
        ev.signingCommitments).2)
    obtain ⟨s1, s2, s3, s4⟩ :=
      receive_params (c := c) ev.identifier ev.signatureShare ev.signingCommitments
    exact ⟨ih1.trans s1, ih2.trans s2, ih3.trans s3, ih4.trans s4⟩

theorem receive_ids {x identifier : Nat} (signatureShare : Option Sh)
    (signingCommitments : Cm)
    (hx : x ∈ (Coordinator.receive P c identifier signatureShare
        signingCommitments).2.responsiveSigners ∨
      x ∈ mKeys (Coordinator.receive P c identifier signatureShare
        signingCommitments).2.signerSession) :
    x = identifier ∨ x ∈ c.responsiveSigners ∨ x ∈ mKeys c.signerSession := by
  have hreg : ∀ (d : Coordinator Sh Cm Sg VS VK M) (cm : Cm),
      (x ∈ (d.registerAndOpen identifier cm).2.responsiveSigners ∨
        x ∈ mKeys (d.registerAndOpen identifier cm).2.signerSession) →
      x = identifier ∨ x ∈ d.responsiveSigners ∨ x ∈ mKeys d.signerSession := by
    intro d cm hmem
    by_cases hopen : (sInsert identifier d.responsiveSigners).length = d.minSigners
    · rw [registerAndOpen_eq_of_eq cm hopen] at hmem
      rcases hmem with hmem | hmem
      · cases hmem
      · rcases (mem_mKeys_foldl_mInsert _ _ _ x).mp hmem with hmem2 | hmem2
        · rcases mem_sInsert.mp hmem2 with rfl | hmem3
          · exact Or.inl rfl
          · exact Or.inr (Or.inl hmem3)
        · exact Or.inr (Or.inr hmem2)
    · rw [registerAndOpen_eq_of_ne cm hopen] at hmem
      rcases hmem with hmem | hmem
      · rcases mem_sInsert.mp hmem with rfl | hmem3
        · exact Or.inl rfl
        · exact Or.inr (Or.inl hmem3)
      · exact Or.inr (Or.inr hmem)
  cases hm : mLookup identifier c.maliciousSigners with
  | some e =>
    rw [receive_of_malicious hm] at hx
    exact Or.inr hx
  | none =>
  by_cases hr : identifier ∈ c.responsiveSigners
  · rw [receive_of_responsive hm hr, markMalicious_snd] at hx
    exact Or.inr hx
  cases hss : mLookup identifier c.signerSession with
  | none =>
    rw [receive_of_unbound hm hr hss] at hx
    exact hreg c signingCommitments hx
  | some sessionId =>
  cases hsess : mLookup sessionId c.session with
  | none =>
    rw [Coordinator.receive, hm] at hx
    simp only [hr, if_false, Bool.false_eq_true, hss, Option.some_bind, hsess,
      Option.map_none'] at hx
    exact hreg c signingCommitments hx
  | some sess =>
  cases signatureShare with
  | none =>
    rw [receive_of_bound_no_share hm hr hss hsess, markMalicious_snd] at hx
    exact Or.inr hx
  | some share =>
  cases hv : Coordinator.verificationResult P c identifier share sess with
  | error e =>
    rw [receive_of_bound_bad_share hm hr hss hsess hv, markMalicious_snd] at hx
    exact Or.inr hx
  | ok u =>
  cases u
  by_cases hlen : (mInsert identifier share sess.signatureShares).length = c.minSigners
  · rw [receive_of_bound_finish hm hr hss hsess hv hlen] at hx
    exact Or.inr hx
  · rw [receive_of_bound_continue hm hr hss hsess hv hlen] at hx
    exact hreg { c with session := (mInsert sessionId
      { sess with signatureShares := mInsert identifier share sess.signatureShares }
      c.session) } signingCommitments hx

theorem runReceives_ids {x : Nat} (evs : List (ReceiveEvent Sh Cm))
    (hx : x ∈ (runReceives P c evs).responsiveSigners ∨
      x ∈ mKeys (runReceives P c evs).signerSession) :
    (∃ ev ∈ evs, ev.identifier = x) ∨ x ∈ c.responsiveSigners ∨
      x ∈ mKeys c.signerSession := by
  induction evs generalizing c with
  | nil => exact Or.inr hx
  | cons ev rest ih =>
    rw [runReceives] at hx
    rcases ih hx with hcase | hcase
    · obtain ⟨ev2, hev2, hev2x⟩ := hcase
      exact Or.inl ⟨ev2, List.mem_cons_of_mem ev hev2, hev2x⟩
    · rcases receive_ids ev.signatureShare ev.signingCommitments hcase with rfl | hcase2
      · exact Or.inl ⟨ev, List.mem_cons_self ev rest, rfl⟩
      · exact Or.inr hcase2

theorem sessionCounter_le (h : Inv c) {S : Finset Nat}
    (hsub : ∀ x ∈ mKeys c.signerSession, x ∈ S) (hcard : S.card = c.maxSigners) :
    c.sessionCounter ≤ c.maxSigners - c.minSigners + 1 := by
  classical
  set k := c.sessionCounter with hk
  rcases Nat.eq_zero_or_pos k with hk0 | hk1
  · omega
  have hsess : ∀ sid, 1 ≤ sid → sid ≤ k → ∃ sess, mLookup sid c.session = some sess := by
    intro sid h1 h2
    have := (h.sess_dom sid).mpr ⟨h1, h2⟩
    rw [← mLookup_isSome_iff] at this
    exact Option.isSome_iff_exists.mp this
  have hwit : ∀ sid, 1 ≤ sid → sid ≤ k → ∃ id, mLookup id c.signerSession = some sid := by
    intro sid h1 h2
    obtain ⟨sess, hs⟩ := hsess sid h1 h2
    obtain ⟨w, hw, _⟩ := h.trap sid sess hs
    exact ⟨w, hw⟩
  let g : Nat → Nat := fun sid =>
    if hh : 1 ≤ sid ∧ sid ≤ k then (hwit sid hh.1 hh.2).choose else 0
  have hg : ∀ sid, 1 ≤ sid → sid ≤ k → mLookup (g sid) c.signerSession = some sid := by
    intro sid h1 h2
    show mLookup (if hh : 1 ≤ sid ∧ sid ≤ k then (hwit sid hh.1 hh.2).choose else 0)
      c.signerSession = some sid
    rw [dif_pos ⟨h1, h2⟩]
    exact (hwit sid h1 h2).choose_spec
  -- the trapped signers of sessions 1..k-1
  have hginj : Set.InjOn g (Finset.Icc 1 (k - 1)) := by
    intro a ha b hb hab
    rw [Finset.coe_Icc, Set.mem_Icc] at ha hb
    have hga := hg a ha.1 (by omega)
    have hgb := hg b hb.1 (by omega)
    rw [hab] at hga
    rw [hga] at hgb
    cases hgb
    rfl
  -- the members of the latest session k
  obtain ⟨sessK, hsessK⟩ := hsess k hk1 (le_refl k)
  have hkeysub : (mKeys sessK.signatureShares).toFinset ⊆ (boundTo c k).toFinset := by
    intro a ha
    rw [List.mem_toFinset] at ha
    rw [List.mem_toFinset, mem_boundTo]
    exact h.latest_bound sessK (hk ▸ hsessK) a ha
  have hcardB : (boundTo c k).toFinset.card = c.minSigners := by
    have := h.members_card k sessK hsessK
    rwa [Finset.union_eq_right.mpr hkeysub] at this
  set T := Finset.image g (Finset.Icc 1 (k - 1)) with hT
  have hcardT : T.card = k - 1 := by
    rw [hT, Finset.card_image_of_injOn hginj, Nat.card_Icc]
    omega
  have hdisj : Disjoint T (boundTo c k).toFinset := by
    rw [Finset.disjoint_left]
    intro a haT haB
    rw [hT, Finset.mem_image] at haT
    obtain ⟨sid, hsid, rfl⟩ := haT
    rw [Finset.mem_Icc] at hsid
    have hga := hg sid hsid.1 (by omega)
    rw [List.mem_toFinset, mem_boundTo] at haB
    rw [hga] at haB
    cases haB
    omega
  have hsubS : T ∪ (boundTo c k).toFinset ⊆ S := by
    intro a ha
    rcases Finset.mem_union.mp ha with ha | ha
    · rw [hT, Finset.mem_image] at ha
      obtain ⟨sid, hsid, rfl⟩ := ha
      rw [Finset.mem_Icc] at hsid
      have hga := hg sid hsid.1 (by omega)
      exact hsub _ (mem_mKeys_of_mLookup hga)
    · rw [List.mem_toFinset, mem_boundTo] at ha
      exact hsub _ (mem_mKeys_of_mLookup ha)
  have hcount : (k - 1) + c.minSigners ≤ c.maxSigners := by
    have h1 : (T ∪ (boundTo c k).toFinset).card = (k - 1) + c.minSigners := by
      rw [Finset.card_union_of_disjoint hdisj, hcardT, hcardB]
    have h2 := Finset.card_le_card hsubS
    rw [h1, hcard] at h2
    exact h2
  have := h.two_le_min
  omega

theorem new_ok {n t : Nat} {pkp : PublicKeyPackage VS VK} {msg : M}
    {c0 : Coordinator Sh Cm Sg VS VK M}
    (h : Coordinator.new n t pkp msg = .ok c0) :
    c0 = { maxSigners := n
           minSigners := t
           publicKeyPackage := pkp
           message := msg
           responsiveSigners := []
           maliciousSigners := []
           latestSigningCommitments := []
           sessionCounter := 0
           signerSession := []
           session := [] } ∧ 2 ≤ t ∧ t ≤ n := by
  rw [Coordinator.new] at h
  by_cases h1 : t < 2
  · rw [if_pos h1] at h
    cases h
  rw [if_neg h1] at h
  by_cases h2 : n < 2
  · rw [if_pos h2] at h
    cases h
  rw [if_neg h2] at h
  by_cases h3 : t > n
  · rw [if_pos h3] at h
    cases h
  rw [if_neg h3] at h
  cases h
  exact ⟨rfl, by omega, by omega⟩

theorem mKeys_filterMap_lookup {V : Type} (g : Nat → Option V) (l : List Nat)
    (h : ∀ x ∈ l, (g x).isSome) :
    mKeys (l.filterMap fun id => (g id).map fun v => (id, v)) = l := by
  induction l with
  | nil => rfl
  | cons a l ih =>
    obtain ⟨v, hv⟩ := Option.isSome_iff_exists.mp (h a (List.mem_cons_self a l))
    rw [List.filterMap_cons, hv]
    simp only [Option.map_some']
    rw [mKeys_cons, ih fun x hx => h x (List.mem_cons_of_mem a hx)]

theorem mLookup_filterMap_lookup {V : Type} (g : Nat → Option V) (l : List Nat)
    (h : ∀ x ∈ l, (g x).isSome) {x : Nat} (hx : x ∈ l) :
    mLookup x (l.filterMap fun id => (g id).map fun v => (id, v)) = g x := by
  induction l with
  | nil => cases hx
  | cons a l ih =>
    obtain ⟨v, hv⟩ := Option.isSome_iff_exists.mp (h a (List.mem_cons_self a l))
    rw [List.filterMap_cons, hv]
    simp only [Option.map_some']
    by_cases hxa : x = a
    · subst hxa
      rw [mLookup, if_pos rfl, hv]
    · rcases List.mem_cons.mp hx with rfl | hx2
      · exact absurd rfl hxa
      · rw [mLookup, if_neg hxa]
        exact ih (fun y hy => h y (List.mem_cons_of_mem a hy)) hx2

theorem registerAndOpen_started {identifier : Nat} {signingCommitments : Cm}
    {signers : List Nat} {sp : SigningPackage Cm M} {c' : Coordinator Sh Cm Sg VS VK M}
    (hrl : ∀ id ∈ c.responsiveSigners, id ∈ mKeys c.latestSigningCommitments)
    (hrec : c.registerAndOpen identifier signingCommitments =
      (.ok (.started signers sp), c')) :
    signers = sInsert identifier c.responsiveSigners ∧
    signers.length = c.minSigners ∧
    c'.sessionCounter = c.sessionCounter + 1 ∧
    (∀ x ∈ signers, mLookup x c'.signerSession = some c'.sessionCounter) ∧
    mKeys sp.signingCommitments = signers ∧
    (∀ x ∈ signers, mLookup x sp.signingCommitments =
      mLookup x (mInsert identifier signingCommitments c.latestSigningCommitments)) ∧
    sp.message = c.message ∧
    c'.responsiveSigners = [] := by
  by_cases hopen : (sInsert identifier c.responsiveSigners).length = c.minSigners
  · rw [registerAndOpen_eq_of_eq signingCommitments hopen] at hrec
    have hfst := congrArg Prod.fst hrec
    have hsnd := congrArg Prod.snd hrec
    simp only [] at hfst hsnd
    cases hfst
    cases hsnd
    have hlat : ∀ x ∈ sInsert identifier c.responsiveSigners,
        (mLookup x (mInsert identifier signingCommitments
          c.latestSigningCommitments)).isSome := by
      intro x hx
      rw [mLookup_isSome_iff]
      rcases mem_sInsert.mp hx with rfl | hx2
      · exact mem_mKeys_mInsert.mpr (Or.inl rfl)
      · exact mem_mKeys_mInsert.mpr (Or.inr (hrl x hx2))
    refine ⟨rfl, hopen, rfl, ?_, ?_, ?_, rfl, rfl⟩
    · intro x hx
      show mLookup x ((sInsert identifier c.responsiveSigners).foldl
        (fun m id => mInsert id (c.sessionCounter + 1) m) c.signerSession) =
        some (c.sessionCounter + 1)
      rw [mLookup_foldl_mInsert, if_pos hx]
    · exact mKeys_filterMap_lookup _ _ hlat
    · intro x hx
      exact mLookup_filterMap_lookup _ _ hlat hx
  · rw [registerAndOpen_eq_of_ne signingCommitments hopen] at hrec
    have hfst := congrArg Prod.fst hrec
    simp only [] at hfst
    cases hfst

theorem receive_started {identifier : Nat} {signatureShare : Option Sh}
    {signingCommitments : Cm} {signers : List Nat} {sp : SigningPackage Cm M}
    {c' : Coordinator Sh Cm Sg VS VK M} (h : Inv c)
    (hrec : Coordinator.receive P c identifier signatureShare signingCommitments =
      (.ok (.started signers sp), c')) :
    signers = sInsert identifier c.responsiveSigners ∧
    signers.length = c.minSigners ∧
    c'.sessionCounter = c.sessionCounter + 1 ∧
    (∀ x ∈ signers, mLookup x c'.signerSession = some c'.sessionCounter) ∧
    mKeys sp.signingCommitments = signers ∧
    (∀ x ∈ signers, mLookup x sp.signingCommitments =
      mLookup x (mInsert identifier signingCommitments c.latestSigningCommitments)) ∧
    sp.message = c.message ∧
    c'.responsiveSigners = [] := by
  cases hm : mLookup identifier c.maliciousSigners with
  | some e =>
    rw [receive_of_malicious hm] at hrec
    cases congrArg Prod.fst hrec
  | none =>
  by_cases hr : identifier ∈ c.responsiveSigners
  · rw [receive_of_responsive hm hr] at hrec
    cases congrArg Prod.fst hrec
  cases hss : mLookup identifier c.signerSession with
  | none =>
    rw [receive_of_unbound hm hr hss] at hrec
    exact registerAndOpen_started h.resp_latest hrec
  | some sessionId =>
  cases hsess : mLookup sessionId c.session with
  | none =>
    exfalso
    have hb := h.ss_range identifier sessionId hss
    have := (h.sess_dom sessionId).mpr hb
    rw [← mLookup_isSome_iff, hsess] at this
    cases this
  | some sess =>
  cases signatureShare with
  | none =>
    rw [receive_of_bound_no_share hm hr hss hsess] at hrec
    cases congrArg Prod.fst hrec
  | some share =>
  cases hv : Coordinator.verificationResult P c identifier share sess with
  | error e =>
    rw [receive_of_bound_bad_share hm hr hss hsess hv] at hrec
    cases congrArg Prod.fst hrec
  | ok u =>
  cases u
  by_cases hlen : (mInsert identifier share sess.signatureShares).length = c.minSigners
  · rw [receive_of_bound_finish hm hr hss hsess hv hlen] at hrec
    have hfst := congrArg Prod.fst hrec
    simp only [] at hfst
    exfalso
    cases hagg : P.aggregate sess.signingPackage
        (mInsert identifier share sess.signatureShares) c.publicKeyPackage with
    | error e =>
      rw [hagg] at hfst
      cases hfst
    | ok sg =>
      rw [hagg] at hfst
      cases hfst
  · rw [receive_of_bound_continue hm hr hss hsess hv hlen] at hrec
    exact registerAndOpen_started
      (c := { c with session := (mInsert sessionId
        { sess with signatureShares := mInsert identifier share sess.signatureShares }
        c.session) }) h.resp_latest hrec

theorem registerAndOpen_no_finish {d : Coordinator Sh Cm Sg VS VK M} {identifier : Nat}
    {cm : Cm} {sg : Sg} {c2 : Coordinator Sh Cm Sg VS VK M}
    (hrec : d.registerAndOpen identifier cm = (.ok (.finished sg), c2)) : False := by
  by_cases hopen : (sInsert identifier d.responsiveSigners).length = d.minSigners
  · rw [registerAndOpen_eq_of_eq cm hopen] at hrec
    cases congrArg Prod.fst hrec
  · rw [registerAndOpen_eq_of_ne cm hopen] at hrec
    cases congrArg Prod.fst hrec

theorem receive_finished {identifier : Nat} {signatureShare : Option Sh}
    {signingCommitments : Cm} {sg : Sg} {c' : Coordinator Sh Cm Sg VS VK M}
    (h : Inv c)
    (hrec : Coordinator.receive P c identifier signatureShare signingCommitments =
      (.ok (.finished sg), c')) :
    ∃ sessionId sess share,
      mLookup identifier c.signerSession = some sessionId ∧
      mLookup sessionId c.session = some sess ∧
      signatureShare = some share ∧
      (mInsert identifier share sess.signatureShares).length = c.minSigners ∧
      P.aggregate sess.signingPackage (mInsert identifier share sess.signatureShares)
        c.publicKeyPackage = .ok sg := by
  cases hm : mLookup identifier c.maliciousSigners with
  | some e =>
    rw [receive_of_malicious hm] at hrec
    cases congrArg Prod.fst hrec
  | none =>
  by_cases hr : identifier ∈ c.responsiveSigners
  · rw [receive_of_responsive hm hr] at hrec
    cases congrArg Prod.fst hrec
  cases hss : mLookup identifier c.signerSession with
  | none =>
    rw [receive_of_unbound hm hr hss] at hrec
    exact (registerAndOpen_no_finish hrec).elim
  | some sessionId =>
  cases hsess : mLookup sessionId c.session with
  | none =>
    exfalso
    have hb := h.ss_range identifier sessionId hss
    have := (h.sess_dom sessionId).mpr hb
    rw [← mLookup_isSome_iff, hsess] at this
    cases this
  | some sess =>
  cases signatureShare with
  | none =>
    rw [receive_of_bound_no_share hm hr hss hsess] at hrec
    cases congrArg Prod.fst hrec
  | some share =>
  cases hv : Coordinator.verificationResult P c identifier share sess with
  | error e =>
    rw [receive_of_bound_bad_share hm hr hss hsess hv] at hrec
    cases congrArg Prod.fst hrec
  | ok u =>
  cases u
  by_cases hlen : (mInsert identifier share sess.signatureShares).length = c.minSigners
  · rw [receive_of_bound_finish hm hr hss hsess hv hlen] at hrec
    have hfst := congrArg Prod.fst hrec
    simp only [] at hfst
    cases hagg : P.aggregate sess.signingPackage
        (mInsert identifier share sess.signatureShares) c.publicKeyPackage with
    | error e =>
      rw [hagg] at hfst
      cases hfst
    | ok sg2 =>
      rw [hagg] at hfst
      cases hfst
      refine ⟨sessionId, sess, share, ?_, ?_, ?_, ?_, ?_⟩
      · rfl
      · exact hsess
      · rfl
      · exact hlen
      · exact hagg
  · rw [receive_of_bound_continue hm hr hss hsess hv hlen] at hrec
    exact (registerAndOpen_no_finish hrec).elim

theorem receive_malicious_mono {x identifier : Nat} {e : MaliciousSignerError}
    (signatureShare : Option Sh) (signingCommitments : Cm)
    (hx : mLookup x c.maliciousSigners = some e) :
    mLookup x (Coordinator.receive P c identifier signatureShare
      signingCommitments).2.maliciousSigners = some e := by
  have hreg : ∀ (d : Coordinator Sh Cm Sg VS VK M) (cm : Cm),
      mLookup x d.maliciousSigners = some e →
      mLookup x (d.registerAndOpen identifier cm).2.maliciousSigners = some e := by
    intro d cm hd
    by_cases hopen : (sInsert identifier d.responsiveSigners).length = d.minSigners
    · rw [registerAndOpen_eq_of_eq cm hopen]
      exact hd
    · rw [registerAndOpen_eq_of_ne cm hopen]
      exact hd
  cases hm : mLookup identifier c.maliciousSigners with
  | some e2 =>
    rw [receive_of_malicious hm]
    exact hx
  | none =>
  have hxi : x ≠ identifier := by
    intro hcontra
    subst hcontra
    rw [hx] at hm
    cases hm
  have hmark : ∀ (ee : MaliciousSignerError),
      mLookup x (c.markMalicious identifier ee).2.maliciousSigners = some e := by
    intro ee
    rw [markMalicious_snd]
    show mLookup x (mInsert identifier ee c.maliciousSigners) = some e
    rw [mLookup_mInsert_ne _ _ hxi]
    exact hx
  by_cases hr : identifier ∈ c.responsiveSigners
  · rw [receive_of_responsive hm hr]
    exact hmark _
  cases hss : mLookup identifier c.signerSession with
  | none =>
    rw [receive_of_unbound hm hr hss]
    exact hreg c signingCommitments hx
  | some sessionId =>
  cases hsess : mLookup sessionId c.session with
  | none =>
    rw [Coordinator.receive, hm]
    simp only [hr, if_false, Bool.false_eq_true, hss, Option.some_bind, hsess,
      Option.map_none']
    exact hreg c signingCommitments hx
  | some sess =>
  cases signatureShare with
  | none =>
    rw [receive_of_bound_no_share hm hr hss hsess]
    exact hmark _
  | some share =>
  cases hv : Coordinator.verificationResult P c identifier share sess with
  | error e2 =>
    rw [receive_of_bound_bad_share hm hr hss hsess hv]
    exact hmark _
  | ok u =>
  cases u
  by_cases hlen : (mInsert identifier share sess.signatureShares).length = c.minSigners
  · rw [receive_of_bound_finish hm hr hss hsess hv hlen]
    exact hx
  · rw [receive_of_bound_continue hm hr hss hsess hv hlen]
    exact hreg { c with session := (mInsert sessionId
      { sess with signatureShares := mInsert identifier share sess.signatureShares }
      c.session) } signingCommitments hx

theorem runReceives_malicious_mono {x : Nat} {e : MaliciousSignerError}
    (evs : List (ReceiveEvent Sh Cm))
    (hx : mLookup x c.maliciousSigners = some e) :
    mLookup x (runReceives P c evs).maliciousSigners = some e := by
  induction evs generalizing c with
  | nil => exact hx
  | cons ev rest ih =>
    rw [runReceives]
    exact ih (receive_malicious_mono ev.signatureShare ev.signingCommitments hx)

end CoordinatorLemmas

section DkgLemmas

variable {R1 R2 SK1 SK2 KP PK : Type}

theorem mLookup_iff_mem_of_nodup {V : Type} {m : Mp V} (h : (mKeys m).Nodup)
    {k : Nat} {v : V} : mLookup k m = some v ↔ (k, v) ∈ m := by
  induction m with
  | nil => simp [mLookup]
  | cons hd tl ih =>
    rw [mKeys_cons] at h
    obtain ⟨hnotin, hnd⟩ := List.nodup_cons.mp h
    by_cases hk : k = hd.1
    · subst hk
      rw [mLookup, if_pos rfl]
      constructor
      · intro hv
        cases hv
        exact List.mem_cons_self _ _
      · intro hv
        rcases List.mem_cons.mp hv with heq | hmem
        · rw [← heq]
        · exact absurd (List.mem_map.mpr ⟨(hd.1, v), hmem, rfl⟩) hnotin
    · rw [mLookup, if_neg hk, ih hnd]
      constructor
      · exact List.mem_cons_of_mem hd
      · intro hv
        rcases List.mem_cons.mp hv with heq | hmem
        · exfalso
          apply hk
          rw [← heq]
        · exact hmem

theorem nodup_subset_full {l1 l2 : List Nat} (h1 : l1.Nodup) (h2 : l2.Nodup)
    (hsub : ∀ x ∈ l1, x ∈ l2) (hlen : l2.length ≤ l1.length) :
    ∀ x ∈ l2, x ∈ l1 := by
  have hsubF : l1.toFinset ⊆ l2.toFinset := fun x hx =>
    List.mem_toFinset.mpr (hsub x (List.mem_toFinset.mp hx))
  have hcard : l2.toFinset.card ≤ l1.toFinset.card := by
    rw [List.toFinset_card_of_nodup h1, List.toFinset_card_of_nodup h2]
    exact hlen
  have heq := Finset.eq_of_subset_of_card_le hsubF hcard
  intro x hx
  have : x ∈ l1.toFinset := by
    rw [heq]
    exact List.mem_toFinset.mpr hx
  exact List.mem_toFinset.mp this

theorem length_eq_of_nodup_sub_sub {l1 l2 : List Nat} (h1 : l1.Nodup) (h2 : l2.Nodup)
    (h12 : ∀ x ∈ l1, x ∈ l2) (h21 : ∀ x ∈ l2, x ∈ l1) : l1.length = l2.length := by
  have heq : l1.toFinset = l2.toFinset := by
    apply Finset.Subset.antisymm
    · exact fun x hx => List.mem_toFinset.mpr (h12 x (List.mem_toFinset.mp hx))
    · exact fun x hx => List.mem_toFinset.mpr (h21 x (List.mem_toFinset.mp hx))
  rw [← List.toFinset_card_of_nodup h1, ← List.toFinset_card_of_nodup h2, heq]

theorem processRound2Culprits_spec (P : DkgPrimitives R1 R2 SK2 KP PK)
    (r1s : Mp R1) (identifier : Nat) (alleged : List Nat)
    (l : List (Nat × R2)) (acc : List Nat)
    (hr1 : ∀ s ∈ mKeys l, s ∈ alleged → s ∈ mKeys r1s) :
    (processRound2Culprits P r1s identifier alleged l acc).1 = none ∧
    ∀ x, x ∈ (processRound2Culprits P r1s identifier alleged l acc).2 ↔
      (x ∈ acc ∨ (x ∈ alleged ∧ ∃ pkg r1, (x, pkg) ∈ l ∧
        mLookup x r1s = some r1 ∧
        P.verifySecretShare identifier pkg r1 = .error .invalidSecretShare)) := by
  induction l generalizing acc with
  | nil =>
    refine ⟨rfl, ?_⟩
    intro x
    rw [processRound2Culprits]
    simp
  | cons hd rest ih =>
    obtain ⟨sender, pkg⟩ := hd
    have hr1rest : ∀ s ∈ mKeys rest, s ∈ alleged → s ∈ mKeys r1s := by
      intro s hs ha
      exact hr1 s (by rw [mKeys_cons]; exact List.mem_cons_of_mem _ hs) ha
    by_cases hsa : sender ∈ alleged
    · have hs1 : sender ∈ mKeys r1s :=
        hr1 sender (by rw [mKeys_cons]; exact List.mem_cons_self _ _) hsa
      rw [← mLookup_isSome_iff] at hs1
      obtain ⟨r1, hr1look⟩ := Option.isSome_iff_exists.mp hs1
      rw [processRound2Culprits, if_pos hsa]
      simp only [hr1look]
      have hcommon : (¬ P.verifySecretShare identifier pkg r1 =
            .error .invalidSecretShare) →
          ((processRound2Culprits P r1s identifier alleged rest acc).1 = none ∧
          ∀ x, x ∈ (processRound2Culprits P r1s identifier alleged rest acc).2 ↔
            (x ∈ acc ∨ (x ∈ alleged ∧ ∃ pkg2 r12, (x, pkg2) ∈ (sender, pkg) :: rest ∧
              mLookup x r1s = some r12 ∧
              P.verifySecretShare identifier pkg2 r12 =
                .error .invalidSecretShare))) := by
        intro hhead
        obtain ⟨ihfst, ihmem⟩ := ih acc hr1rest
        refine ⟨ihfst, ?_⟩
        intro x
        rw [ihmem x]
        constructor
        · rintro (hx | ⟨hx1, pkg2, r12, hx2, hx3, hx4⟩)
          · exact Or.inl hx
          · exact Or.inr ⟨hx1, pkg2, r12, List.mem_cons_of_mem _ hx2, hx3, hx4⟩
        · rintro (hx | ⟨hx1, pkg2, r12, hx2, hx3, hx4⟩)
          · exact Or.inl hx
          · rcases List.mem_cons.mp hx2 with heq | hmem
            · exfalso
              injection heq with he1 he2
              subst he1
              subst he2
              rw [hr1look] at hx3
              cases hx3
              exact hhead hx4
            · exact Or.inr ⟨hx1, pkg2, r12, hmem, hx3, hx4⟩
      cases hv : P.verifySecretShare identifier pkg r1 with
      | ok u =>
        simp only [hv]
        refine hcommon ?_
        intro hcontra
        rw [hv] at hcontra
        cases hcontra
      | error e =>
        cases e with
        | invalidSecretShare =>
          simp only [hv]
          obtain ⟨ihfst, ihmem⟩ := ih (sInsert sender acc) hr1rest
          refine ⟨ihfst, ?_⟩
          intro x
          rw [ihmem x, mem_sInsert]
          constructor
          · rintro ((rfl | hx) | ⟨hx1, pkg2, r12, hx2, hx3, hx4⟩)
            · exact Or.inr ⟨hsa, pkg, r1, List.mem_cons_self _ _, hr1look, hv⟩
            · exact Or.inl hx
            · exact Or.inr ⟨hx1, pkg2, r12, List.mem_cons_of_mem _ hx2, hx3, hx4⟩
          · rintro (hx | ⟨hx1, pkg2, r12, hx2, hx3, hx4⟩)
            · exact Or.inl (Or.inr hx)
            · rcases List.mem_cons.mp hx2 with heq | hmem
              · injection heq with he1 he2
                subst he1
                subst he2
                exact Or.inl (Or.inl rfl)
              · exact Or.inr ⟨hx1, pkg2, r12, hmem, hx3, hx4⟩
        | invalidMinSigners =>
          simp only [hv]
          refine hcommon ?_
          intro hcontra
          rw [hv] at hcontra
          injection hcontra with hh
          cases hh
        | invalidMaxSigners =>
          simp only [hv]
          refine hcommon ?_
          intro hcontra
          rw [hv] at hcontra
          injection hcontra with hh
          cases hh
        | unknownIdentifier =>
          simp only [hv]
          refine hcommon ?_
          intro hcontra
          rw [hv] at hcontra
          injection hcontra with hh
          cases hh
        | incorrectNumberOfCommitments =>
          simp only [hv]
          refine hcommon ?_
          intro hcontra
          rw [hv] at hcontra
          injection hcontra with hh
          cases hh
        | incorrectNumberOfPackages =>
          simp only [hv]
          refine hcommon ?_
          intro hcontra
          rw [hv] at hcontra
          injection hcontra with hh
          cases hh
        | incorrectPackage =>
          simp only [hv]
          refine hcommon ?_
          intro hcontra
          rw [hv] at hcontra
          injection hcontra with hh
          cases hh
        | packageNotFound =>
          simp only [hv]
          refine hcommon ?_
          intro hcontra
          rw [hv] at hcontra
          injection hcontra with hh
          cases hh
        | invalidProofOfKnowledge =>
          simp only [hv]
          refine hcommon ?_
          intro hcontra
          rw [hv] at hcontra
          injection hcontra with hh
          cases hh
        | other code =>
          simp only [hv]
          refine hcommon ?_
          intro hcontra
          rw [hv] at hcontra
          injection hcontra with hh
          cases hh
    · rw [processRound2Culprits, if_neg hsa]
      obtain ⟨ihfst, ihmem⟩ := ih acc hr1rest
      refine ⟨ihfst, ?_⟩
      intro x
      rw [ihmem x]
      constructor
      · rintro (hx | ⟨hx1, pkg2, r12, hx2, hx3, hx4⟩)
        · exact Or.inl hx
        · exact Or.inr ⟨hx1, pkg2, r12, List.mem_cons_of_mem _ hx2, hx3, hx4⟩
      · rintro (hx | ⟨hx1, pkg2, r12, hx2, hx3, hx4⟩)
        · exact Or.inl hx
        · rcases List.mem_cons.mp hx2 with heq | hmem
          · exfalso
            injection heq with he1 he2
            subst he1
            exact hsa hx1
          · exact Or.inr ⟨hx1, pkg2, r12, hmem, hx3, hx4⟩

end DkgLemmas

section ClaimTheorems

/-- C1: for every coordinator built with `new(n, t, …)` and every sequence of
`receive` calls whose identifiers are among the `n` signers of the public key
package, the value of `session_counter` never exceeds `n − t + 1`. -/
theorem claim_C1_session_count_bound {Sh Cm Sg VS VK M : Type}
    (P : FrostPrimitives Sh Cm Sg VS VK M) (n t : Nat)
    (pkp : PublicKeyPackage VS VK) (msg : M) (c0 : Coordinator Sh Cm Sg VS VK M)
    (evs : List (ReceiveEvent Sh Cm))
    (hnew : Coordinator.new n t pkp msg = .ok c0)
    (hcard : (mKeys pkp.verifyingShares).toFinset.card = n)
    (hevs : ∀ ev ∈ evs, ev.identifier ∈ mKeys pkp.verifyingShares) :
    (runReceives P c0 evs).sessionCounter ≤ n - t + 1 := by
  obtain ⟨hc0, h2t, htn⟩ := new_ok hnew
  have hInv : Inv (runReceives P c0 evs) := inv_runReceives evs (inv_new hnew)
  obtain ⟨hmax, hmin, hpk, hmsg⟩ := runReceives_params (P := P) (c := c0) evs
  have hmax0 : c0.maxSigners = n := by rw [hc0]
  have hmin0 : c0.minSigners = t := by rw [hc0]
  have hsub : ∀ x ∈ mKeys (runReceives P c0 evs).signerSession,
      x ∈ (mKeys pkp.verifyingShares).toFinset := by
    intro x hx
    rcases runReceives_ids evs (Or.inr hx) with hcase | hcase | hcase
    · obtain ⟨ev, hev, rfl⟩ := hcase
      exact List.mem_toFinset.mpr (hevs ev hev)
    · rw [hc0] at hcase
      exact absurd hcase (List.not_mem_nil x)
    · rw [hc0] at hcase
      exact absurd hcase (List.not_mem_nil x)
  have hfin := sessionCounter_le hInv hsub (by rw [hcard, hmax, hmax0])
  rw [hmax, hmin, hmax0, hmin0] at hfin
  exact hfin

/-- Witness for C1 at `n = 3`, `t = 2` with a single commitment event. -/
theorem claim_C1_session_count_bound_witness :
    (runReceives unitPrimitives coord0 [commitEvent 1]).sessionCounter ≤ 3 - 2 + 1 :=
  claim_C1_session_count_bound unitPrimitives 3 2 pkp3 () coord0 [commitEvent 1]
    rfl (by decide) (by decide)

/-- C3 (counterexample): after `new(3, 2, …)` and the reachable trace
commit(1), commit(2), share(1), the last call returns `InProgress` (it is not
an open-session step), yet signer 1 is simultaneously in `responsive_signers`
and in the domain of `signer_session`, so the two sets are not disjoint. -/
theorem claim_C3_counterexample :
    Coordinator.new 3 2 pkp3 () = .ok coord0 ∧
    (Coordinator.receive unitPrimitives
      (runReceives unitPrimitives coord0 [commitEvent 1, commitEvent 2])
      1 (some ()) ()).1 = .ok .inProgress ∧
    1 ∈ (runReceives unitPrimitives coord0
      [commitEvent 1, commitEvent 2, shareEvent 1]).responsiveSigners ∧
    1 ∈ mKeys (runReceives unitPrimitives coord0
      [commitEvent 1, commitEvent 2, shareEvent 1]).signerSession :=
  ⟨rfl, rfl, by decide, by decide⟩

/-- C3 (amended): in every reachable observable coordinator state, a signer in
`responsive_signers ∩ dom(signer_session)` has already had its signature share
recorded in the session it is bound to (the pending-session bindings are never
removed, so the plain disjointness claimed by the spec fails). -/
theorem claim_C3_responsive_bound_overlap {Sh Cm Sg VS VK M : Type}
    (P : FrostPrimitives Sh Cm Sg VS VK M) (n t : Nat)
    (pkp : PublicKeyPackage VS VK) (msg : M) (c0 c : Coordinator Sh Cm Sg VS VK M)
    (evs : List (ReceiveEvent Sh Cm))
    (hnew : Coordinator.new n t pkp msg = .ok c0)
    (hreach : c = runReceives P c0 evs) :
    ∀ id sid, id ∈ c.responsiveSigners → mLookup id c.signerSession = some sid →
      ∃ sess, mLookup sid c.session = some sess ∧
        id ∈ mKeys sess.signatureShares := by
  subst hreach
  have hInv := inv_runReceives (P := P) evs (inv_new hnew)
  intro id sid hresp hss
  have hb := hInv.ss_range id sid hss
  have hmem := (hInv.sess_dom sid).mpr hb
  rw [← mLookup_isSome_iff] at hmem
  obtain ⟨sess, hsess⟩ := Option.isSome_iff_exists.mp hmem
  refine ⟨sess, hsess, ?_⟩
  by_contra hnk
  exact hInv.not_responsive id sid sess hss hsess hnk hresp

/-- Witness for the amended C3 on the counterexample trace: signer 1 is both
responsive and bound to session 1, and its share is indeed recorded there. -/
theorem claim_C3_responsive_bound_overlap_witness :
    ∃ sess, mLookup 1 (runReceives unitPrimitives coord0
        [commitEvent 1, commitEvent 2, shareEvent 1]).session = some sess ∧
      1 ∈ mKeys sess.signatureShares :=
  claim_C3_responsive_bound_overlap unitPrimitives 3 2 pkp3 () coord0
    (runReceives unitPrimitives coord0 [commitEvent 1, commitEvent 2, shareEvent 1])
    [commitEvent 1, commitEvent 2, shareEvent 1] rfl rfl 1 1 (by decide) (by decide)

/-- C4: when `receive` returns `Started`, the session counter was incremented
by exactly one (the first session has id 1 since `new` starts the counter at
0), the returned signers are exactly the `t` identifiers gathered in
`responsive_signers`, each is rebound to the new session id, the signing
package maps exactly those signers to their latest registered commitments
together with the fixed message, and `responsive_signers` is empty
afterwards. -/
theorem claim_C4_started_postconditions {Sh Cm Sg VS VK M : Type}
    (P : FrostPrimitives Sh Cm Sg VS VK M) (n t : Nat)
    (pkp : PublicKeyPackage VS VK) (msg : M)
    (c0 c c2 : Coordinator Sh Cm Sg VS VK M) (evs : List (ReceiveEvent Sh Cm))
    (identifier : Nat) (sh : Option Sh) (cm : Cm) (signers : List Nat)
    (sp : SigningPackage Cm M)
    (hnew : Coordinator.new n t pkp msg = .ok c0)
    (hreach : c = runReceives P c0 evs)
    (hrec : Coordinator.receive P c identifier sh cm =
      (.ok (.started signers sp), c2)) :
    c0.sessionCounter = 0 ∧
    c2.sessionCounter = c.sessionCounter + 1 ∧
    signers = sInsert identifier c.responsiveSigners ∧
    signers.length = t ∧
    (∀ x ∈ signers, mLookup x c2.signerSession = some c2.sessionCounter) ∧
    mKeys sp.signingCommitments = signers ∧
    (∀ x ∈ signers, mLookup x sp.signingCommitments =
      mLookup x (mInsert identifier cm c.latestSigningCommitments)) ∧
    sp.message = msg ∧
    c2.responsiveSigners = [] := by
  subst hreach
  obtain ⟨hc0, h2t, htn⟩ := new_ok hnew
  have hInv := inv_runReceives (P := P) evs (inv_new hnew)
  obtain ⟨hsig, hlen, hcnt, hbound, hkeys, hlook, hmsg, hresp⟩ :=
    receive_started hInv hrec
  obtain ⟨hmax, hmin, hpk, hmesg⟩ := runReceives_params (P := P) (c := c0) evs
  have hmin0 : c0.minSigners = t := by rw [hc0]
  have hmesg0 : c0.message = msg := by rw [hc0]
  refine ⟨by rw [hc0], hcnt, hsig, ?_, hbound, hkeys, hlook, ?_, hresp⟩
  · rw [hlen, hmin, hmin0]
  · rw [hmsg, hmesg, hmesg0]

/-- Witness for C4: the second commitment on a fresh 2-of-3 coordinator opens
session 1 with signers 2 and 1. -/
theorem claim_C4_started_postconditions_witness :
    (Coordinator.receive unitPrimitives (runReceives unitPrimitives coord0 [commitEvent 1])
        2 none ()).2.sessionCounter =
      (runReceives unitPrimitives coord0 [commitEvent 1]).sessionCounter + 1 ∧
    ([2, 1] : List Nat).length = 2 :=
  have h := claim_C4_started_postconditions unitPrimitives 3 2 pkp3 () coord0
    (runReceives unitPrimitives coord0 [commitEvent 1])
    (Coordinator.receive unitPrimitives (runReceives unitPrimitives coord0 [commitEvent 1])
      2 none ()).2
    [commitEvent 1] 2 none () [2, 1]
    { signingCommitments := [(2, ()), (1, ())], message := () }
    rfl rfl rfl
  ⟨h.2.1, h.2.2.2.1⟩

/-- C5: a `receive` call from a signer already recorded in
`malicious_signers` returns `MaliciousSigner` with the originally recorded
kind, leaves the whole coordinator state unchanged, and never returns a
success status. -/
theorem claim_C5_malicious_signer_frozen {Sh Cm Sg VS VK M : Type}
    (P : FrostPrimitives Sh Cm Sg VS VK M) (c : Coordinator Sh Cm Sg VS VK M)
    (identifier : Nat) (e : MaliciousSignerError) (sh : Option Sh) (cm : Cm)
    (hm : mLookup identifier c.maliciousSigners = some e) :
    Coordinator.receive P c identifier sh cm = (.error (.maliciousSigner e), c) ∧
    ∀ (st : SessionStatus Sh Cm Sg M) (c2 : Coordinator Sh Cm Sg VS VK M),
      Coordinator.receive P c identifier sh cm ≠ (.ok st, c2) := by
  have h1 := receive_of_malicious (P := P) hm sh cm
  refine ⟨h1, ?_⟩
  intro st c2 hcontra
  rw [h1] at hcontra
  cases congrArg Prod.fst hcontra

/-- Witness for C5: signer 1 of `coordMal` is frozen with the originally
recorded `UnsolicitedReply` kind. -/
theorem claim_C5_malicious_signer_frozen_witness :
    Coordinator.receive unitPrimitives coordMal 1 none () =
      (.error (.maliciousSigner .unsolicitedReply), coordMal) ∧
    ∀ (st : SessionStatus Unit Unit Unit Unit)
      (c2 : Coordinator Unit Unit Unit Unit Unit Unit),
      Coordinator.receive unitPrimitives coordMal 1 none () ≠ (.ok st, c2) :=
  claim_C5_malicious_signer_frozen unitPrimitives coordMal 1 .unsolicitedReply none ()
    (by decide)

/-- C6: `mark_malicious` inserts the pair into `malicious_signers` and
returns `TooManyMaliciousSigners` exactly when the map then has more than
`n − t` entries (`MaliciousSigner(kind)` otherwise); membership in
`malicious_signers` is terminal across all later `receive` calls. -/
theorem claim_C6_mark_malicious_append_only {Sh Cm Sg VS VK M : Type}
    (P : FrostPrimitives Sh Cm Sg VS VK M) :
    (∀ (c : Coordinator Sh Cm Sg VS VK M) (identifier : Nat)
      (e : MaliciousSignerError),
      (c.markMalicious identifier e).2 =
        { c with maliciousSigners := mInsert identifier e c.maliciousSigners } ∧
      mLookup identifier (c.markMalicious identifier e).2.maliciousSigners = some e ∧
      (c.markMalicious identifier e).1 =
        (if (mInsert identifier e c.maliciousSigners).length >
            c.maxSigners - c.minSigners
          then .tooManyMaliciousSigners else .maliciousSigner e)) ∧
    (∀ (c : Coordinator Sh Cm Sg VS VK M) (evs : List (ReceiveEvent Sh Cm))
      (identifier : Nat) (e : MaliciousSignerError),
      mLookup identifier c.maliciousSigners = some e →
      mLookup identifier (runReceives P c evs).maliciousSigners = some e) := by
  constructor
  · intro c identifier e
    refine ⟨markMalicious_snd identifier e, ?_, markMalicious_fst identifier e⟩
    rw [markMalicious_snd]
    exact mLookup_mInsert_self identifier e c.maliciousSigners
  · intro c evs identifier e hx
    exact runReceives_malicious_mono evs hx

/-- Witness for C6: the recorded kind for signer 1 of `coordMal` survives a
later `receive` call from signer 2. -/
theorem claim_C6_mark_malicious_append_only_witness :
    mLookup 1 (runReceives unitPrimitives coordMal [commitEvent 2]).maliciousSigners =
      some .unsolicitedReply :=
  (claim_C6_mark_malicious_append_only unitPrimitives).2 coordMal [commitEvent 2] 1
    .unsolicitedReply (by decide)

/-- C10: the coordinator never validates an identifier against the public key
package before registering a commitment: any signer that is not malicious,
not responsive and not bound to a session — in particular one without a
verifying share — has its `receive(id, None, commitments)` call succeed,
its commitment recorded, and itself counted toward the threshold; no
`UnknownIdentifier` error is raised. -/
theorem claim_C10_no_identifier_validation {Sh Cm Sg VS VK M : Type}
    (P : FrostPrimitives Sh Cm Sg VS VK M) (c : Coordinator Sh Cm Sg VS VK M)
    (identifier : Nat) (cm : Cm)
    (hm : mLookup identifier c.maliciousSigners = none)
    (hr : identifier ∉ c.responsiveSigners)
    (hss : mLookup identifier c.signerSession = none) :
    mLookup identifier
      (Coordinator.receive P c identifier none cm).2.latestSigningCommitments =
        some cm ∧
    ((Coordinator.receive P c identifier none cm).1 = .ok .inProgress ∨
      ∃ sp, (Coordinator.receive P c identifier none cm).1 =
        .ok (.started (sInsert identifier c.responsiveSigners) sp)) ∧
    ((Coordinator.receive P c identifier none cm).1 = .ok .inProgress →
      identifier ∈ (Coordinator.receive P c identifier none cm).2.responsiveSigners) ∧
    (∀ (signers : List Nat) (sp : SigningPackage Cm M),
      (Coordinator.receive P c identifier none cm).1 = .ok (.started signers sp) →
      identifier ∈ signers) := by
  rw [receive_of_unbound hm hr hss]
  by_cases hopen : (sInsert identifier c.responsiveSigners).length = c.minSigners
  · rw [registerAndOpen_eq_of_eq cm hopen]
    refine ⟨mLookup_mInsert_self _ _ _, Or.inr ⟨_, rfl⟩, ?_, ?_⟩
    · intro hcontra
      cases hcontra
    · intro signers sp hst
      cases hst
      exact mem_sInsert.mpr (Or.inl rfl)
  · rw [registerAndOpen_eq_of_ne cm hopen]
    refine ⟨mLookup_mInsert_self _ _ _, Or.inl rfl, ?_, ?_⟩
    · intro _
      exact mem_sInsert.mpr (Or.inl rfl)
    · intro signers sp hst
      cases hst

/-- Witness for C10 at identifier 5, which has no verifying share in `pkp3`. -/
theorem claim_C10_no_identifier_validation_witness :
    mLookup 5 (Coordinator.receive unitPrimitives coord0 5 none ()).2.latestSigningCommitments =
      some () ∧
    ((Coordinator.receive unitPrimitives coord0 5 none ()).1 = .ok .inProgress ∨
      ∃ sp, (Coordinator.receive unitPrimitives coord0 5 none ()).1 =
        .ok (.started (sInsert 5 coord0.responsiveSigners) sp)) ∧
    ((Coordinator.receive unitPrimitives coord0 5 none ()).1 = .ok .inProgress →
      5 ∈ (Coordinator.receive unitPrimitives coord0 5 none ()).2.responsiveSigners) ∧
    (∀ (signers : List Nat) (sp : SigningPackage Unit Unit),
      (Coordinator.receive unitPrimitives coord0 5 none ()).1 = .ok (.started signers sp) →
      5 ∈ signers) :=
  claim_C10_no_identifier_validation unitPrimitives coord0 5 () rfl (by decide) rfl

/-- C2: in every reachable coordinator state the share map of every session
holds at most `t` shares; the `receive` call whose share insertion reaches
`t` immediately returns the result of the `aggregate` primitive on the
signing package of the session and those shares (`Finished` on success, the
propagated `Frost` error otherwise); and, under the FROST aggregation
contract, any signature returned by `Finished` verifies under the group
verifying key on the fixed message. -/
theorem claim_C2_threshold_aggregation {Sh Cm Sg VS VK M : Type}
    (P : FrostPrimitives Sh Cm Sg VS VK M) (n t : Nat)
    (pkp : PublicKeyPackage VS VK) (msg : M) (c0 c : Coordinator Sh Cm Sg VS VK M)
    (evs : List (ReceiveEvent Sh Cm))
    (hnew : Coordinator.new n t pkp msg = .ok c0)
    (hreach : c = runReceives P c0 evs)
    (hagg : ∀ (sp : SigningPackage Cm M) (shares : Mp Sh)
      (pk : PublicKeyPackage VS VK) (sg : Sg), P.aggregate sp shares pk = .ok sg →
      P.verifySignature sp.message sg pk.verifyingKey = .ok ()) :
    (∀ sid sess, mLookup sid c.session = some sess →
      sess.signatureShares.length ≤ t) ∧
    (∀ (identifier sessionId : Nat) (sess : Session Sh Cm M) (share : Sh) (cm : Cm),
      mLookup identifier c.maliciousSigners = none →
      identifier ∉ c.responsiveSigners →
      mLookup identifier c.signerSession = some sessionId →
      mLookup sessionId c.session = some sess →
      Coordinator.verificationResult P c identifier share sess = .ok () →
      (mInsert identifier share sess.signatureShares).length = t →
      Coordinator.receive P c identifier (some share) cm =
        (Except.mapError RError.frost
          ((P.aggregate sess.signingPackage
            (mInsert identifier share sess.signatureShares)
            c.publicKeyPackage).map SessionStatus.finished),
        { c with session := (mInsert sessionId
            { sess with signatureShares := mInsert identifier share sess.signatureShares }
            c.session) })) ∧
    (∀ (identifier : Nat) (sh : Option Sh) (cm : Cm) (sg : Sg)
      (c2 : Coordinator Sh Cm Sg VS VK M),
      Coordinator.receive P c identifier sh cm = (.ok (.finished sg), c2) →
      P.verifySignature msg sg pkp.verifyingKey = .ok ()) := by
  subst hreach
  obtain ⟨hc0, h2t, htn⟩ := new_ok hnew
  have hInv := inv_runReceives (P := P) evs (inv_new hnew)
  obtain ⟨hmax, hmin, hpk, hmesg⟩ := runReceives_params (P := P) (c := c0) evs
  have hmin2 : (runReceives P c0 evs).minSigners = t := by
    rw [hmin, hc0]
  have hmesg2 : (runReceives P c0 evs).message = msg := by
    rw [hmesg, hc0]
  have hpk2 : (runReceives P c0 evs).publicKeyPackage = pkp := by
    rw [hpk, hc0]
  refine ⟨?_, ?_, ?_⟩
  · intro sid sess hs
    have hcard := hInv.members_card sid sess hs
    have hsub : (mKeys sess.signatureShares).toFinset ⊆
        (mKeys sess.signatureShares).toFinset ∪
          (boundTo (runReceives P c0 evs) sid).toFinset :=
      Finset.subset_union_left
    have hle := Finset.card_le_card hsub
    rw [hcard, hmin2] at hle
    have hnd := hInv.shares_nodup sid sess hs
    rw [List.toFinset_card_of_nodup hnd, length_mKeys] at hle
    exact hle
  · intro identifier sessionId sess share cm hm hr hss hsess hv hlen
    rw [← hmin2] at hlen
    exact receive_of_bound_finish hm hr hss hsess hv hlen cm
  · intro identifier sh cm sg c2 hrec
    obtain ⟨sessionId, sess, share, hss, hsess, hshape, hlen, haggOk⟩ :=
      receive_finished hInv hrec
    have hmsgEq := hInv.msg_eq sessionId sess hsess
    have hres := hagg sess.signingPackage
      (mInsert identifier share sess.signatureShares)
      (runReceives P c0 evs).publicKeyPackage sg haggOk
    rw [hmsgEq, hmesg2, hpk2] at hres
    exact hres

/-- Witness for C2 on the fresh 2-of-3 coordinator with the trivial
primitives (whose aggregation contract holds definitionally). -/
theorem claim_C2_threshold_aggregation_witness :
    (∀ sid sess, mLookup sid coord0.session = some sess →
      sess.signatureShares.length ≤ 2) ∧
    (∀ (identifier sessionId : Nat) (sess : Session Unit Unit Unit) (share : Unit)
      (cm : Unit),
      mLookup identifier coord0.maliciousSigners = none →
      identifier ∉ coord0.responsiveSigners →
      mLookup identifier coord0.signerSession = some sessionId →
      mLookup sessionId coord0.session = some sess →
      Coordinator.verificationResult unitPrimitives coord0 identifier share sess =
        .ok () →
      (mInsert identifier share sess.signatureShares).length = 2 →
      Coordinator.receive unitPrimitives coord0 identifier (some share) cm =
        (Except.mapError RError.frost
          ((unitPrimitives.aggregate sess.signingPackage
            (mInsert identifier share sess.signatureShares)
            coord0.publicKeyPackage).map SessionStatus.finished),
        { coord0 with session := (mInsert sessionId
            { sess with signatureShares := mInsert identifier share sess.signatureShares }
            coord0.session) })) ∧
    (∀ (identifier : Nat) (sh : Option Unit) (cm : Unit) (sg : Unit)
      (c2 : Coordinator Unit Unit Unit Unit Unit Unit),
      Coordinator.receive unitPrimitives coord0 identifier sh cm =
        (.ok (.finished sg), c2) →
      unitPrimitives.verifySignature () sg pkp3.verifyingKey = .ok ()) :=
  claim_C2_threshold_aggregation unitPrimitives 3 2 pkp3 () coord0 coord0 [] rfl rfl
    (fun _ _ _ _ _ => rfl)

/-- C7: on a well-formed trusted third party (`n` distinct participants), a
successful `receive_round1_package` returns `FinishedRound1` exactly when all
`n` participants then have a stored round-1 package, and a successful
`receive_round2_packages` returns `FinishedRound2` exactly when all `n`
participants have completed round 2; every other successful receive returns
`InProgress`. -/
theorem claim_C7_dkg_round_transitions {R1 R2 SK2 KP PK : Type}
    (P : DkgPrimitives R1 R2 SK2 KP PK) (t : TrustedThirdParty R1 R2)
    (hpartNodup : t.participants.Nodup)
    (hpartCount : t.participants.length = t.maxSigners)
    (hset : ∀ x, x ∈ t.participantsSet ↔ x ∈ t.participants)
    (hr1sub : ∀ x ∈ mKeys t.round1Packages, x ∈ t.participants)
    (hr1nodup : (mKeys t.round1Packages).Nodup)
    (hr2sub : ∀ x ∈ t.round2ParticipantsSet, x ∈ t.participants)
    (hr2nodup : t.round2ParticipantsSet.Nodup) :
    (∀ (identifier : Nat) (pkg : R1) (st : DkgStatus) (t2 : TrustedThirdParty R1 R2),
      t.receiveRound1Package P identifier pkg = (.ok st, t2) →
      ((st = .finishedRound1 ↔ ∀ p ∈ t.participants, p ∈ mKeys t2.round1Packages) ∧
        (st = .finishedRound1 ∨ st = .inProgress))) ∧
    (∀ (identifier : Nat) (pkgs : Mp R2) (st : DkgStatus)
      (t2 : TrustedThirdParty R1 R2),
      t.receiveRound2Packages identifier pkgs = (.ok st, t2) →
      ((st = .finishedRound2 ↔ ∀ p ∈ t.participants, p ∈ t2.round2ParticipantsSet) ∧
        (st = .finishedRound2 ∨ st = .inProgress))) := by
  constructor
  · intro identifier pkg st t2 hrec
    rw [TrustedThirdParty.receiveRound1Package] at hrec
    by_cases h1 : identifier ∉ t.participantsSet
    · rw [if_pos h1] at hrec
      cases congrArg Prod.fst hrec
    rw [if_neg h1] at hrec
    by_cases h2 : P.coefficientCount pkg ≠ t.minSigners
    · rw [if_pos h2] at hrec
      cases congrArg Prod.fst hrec
    rw [if_neg h2] at hrec
    cases hpok : P.verifyProofOfKnowledge identifier pkg with
    | error e =>
      rw [hpok] at hrec
      cases congrArg Prod.fst hrec
    | ok u =>
    cases u
    rw [hpok] at hrec
    simp only [] at hrec
    have hidp : identifier ∈ t.participants := (hset identifier).mp (not_not.mp h1)
    have hsub : ∀ x ∈ mKeys (mInsert identifier pkg t.round1Packages),
        x ∈ t.participants := by
      intro x hx
      rcases mem_mKeys_mInsert.mp hx with rfl | hx2
      · exact hidp
      · exact hr1sub x hx2
    have hnd : (mKeys (mInsert identifier pkg t.round1Packages)).Nodup :=
      mKeys_mInsert_nodup _ hr1nodup
    by_cases hfin : (mInsert identifier pkg t.round1Packages).length = t.maxSigners
    · rw [if_pos hfin] at hrec
      have hfst := congrArg Prod.fst hrec
      have hsnd := congrArg Prod.snd hrec
      simp only [] at hfst hsnd
      cases hfst
      cases hsnd
      refine ⟨⟨fun _ => ?_, fun _ => rfl⟩, Or.inl rfl⟩
      have hlen : t.participants.length ≤
          (mKeys (mInsert identifier pkg t.round1Packages)).length := by
        rw [length_mKeys, hfin, hpartCount]
      exact nodup_subset_full hnd hpartNodup hsub hlen
    · rw [if_neg hfin] at hrec
      have hfst := congrArg Prod.fst hrec
      have hsnd := congrArg Prod.snd hrec
      simp only [] at hfst hsnd
      cases hfst
      cases hsnd
      refine ⟨⟨fun hcontra => DkgStatus.noConfusion hcontra, fun hall => ?_⟩, Or.inr rfl⟩
      exfalso
      apply hfin
      have := length_eq_of_nodup_sub_sub hnd hpartNodup hsub hall
      rw [length_mKeys] at this
      rw [this, hpartCount]
  · intro identifier pkgs st t2 hrec
    rw [TrustedThirdParty.receiveRound2Packages] at hrec
    by_cases h1 : identifier ∉ t.participantsSet
    · rw [if_pos h1] at hrec
      cases congrArg Prod.fst hrec
    rw [if_neg h1] at hrec
    by_cases h2 : pkgs.length ≠ t.maxSigners - 1
    · rw [if_pos h2] at hrec
      cases congrArg Prod.fst hrec
    rw [if_neg h2] at hrec
    by_cases h3 : ∃ id ∈ t.participants, id ≠ identifier ∧ id ∉ mKeys pkgs
    · rw [if_pos h3] at hrec
      cases congrArg Prod.fst hrec
    rw [if_neg h3] at hrec
    simp only [] at hrec
    have hidp : identifier ∈ t.participants := (hset identifier).mp (not_not.mp h1)
    have hsub : ∀ x ∈ sInsert identifier t.round2ParticipantsSet,
        x ∈ t.participants := by
      intro x hx
      rcases mem_sInsert.mp hx with rfl | hx2
      · exact hidp
      · exact hr2sub x hx2
    have hnd : (sInsert identifier t.round2ParticipantsSet).Nodup :=
      sInsert_nodup hr2nodup
    by_cases hfin : (sInsert identifier t.round2ParticipantsSet).length = t.maxSigners
    · rw [if_pos hfin] at hrec
      have hfst := congrArg Prod.fst hrec
      have hsnd := congrArg Prod.snd hrec
      simp only [] at hfst hsnd
      cases hfst
      cases hsnd
      refine ⟨⟨fun _ => ?_, fun _ => rfl⟩, Or.inl rfl⟩
      have hlen : t.participants.length ≤
          (sInsert identifier t.round2ParticipantsSet).length := by
        rw [hfin, hpartCount]
      exact nodup_subset_full hnd hpartNodup hsub hlen
    · rw [if_neg hfin] at hrec
      have hfst := congrArg Prod.fst hrec
      have hsnd := congrArg Prod.snd hrec
      simp only [] at hfst hsnd
      cases hfst
      cases hsnd
      refine ⟨⟨fun hcontra => DkgStatus.noConfusion hcontra, fun hall => ?_⟩, Or.inr rfl⟩
      exfalso
      apply hfin
      rw [length_eq_of_nodup_sub_sub hnd hpartNodup hsub hall, hpartCount]

/-- Witness for C7: the first round-1 package on a fresh 2-participant TTP
leaves the DKG in progress, and indeed not every participant has a package. -/
theorem claim_C7_dkg_round_transitions_witness :
    ((DkgStatus.inProgress = .finishedRound1 ↔ ∀ p ∈ ttp0.participants,
      p ∈ mKeys (TrustedThirdParty.receiveRound1Package unitDkgPrimitives ttp0 1
        ()).2.round1Packages) ∧
      (DkgStatus.inProgress = .finishedRound1 ∨ DkgStatus.inProgress = .inProgress)) :=
  (claim_C7_dkg_round_transitions unitDkgPrimitives ttp0 (by decide) (by decide)
    (fun x => Iff.rfl) (by decide) (by decide) (by decide) (by decide)).1 1 () .inProgress
    (TrustedThirdParty.receiveRound1Package unitDkgPrimitives ttp0 1 ()).2 rfl

/-- C8: under `receive_round2_culprits(id, alleged)` with `id` and every
alleged culprit known, and a stored round-1 package for every alleged sender,
the call succeeds with `InProgress` and a sender `ell` is in the culprit set
afterwards exactly when it was there before or it is alleged, its stored
round-2 package to `id` reconstructs a secret share that fails verification
with `InvalidSecretShare`; and `try_finish` returns `FinishedRound3` exactly
when the culprit set is empty, failing with `InvalidSecretShares`
otherwise. -/
theorem claim_C8_culprit_attribution {R1 R2 SK2 KP PK : Type}
    (P : DkgPrimitives R1 R2 SK2 KP PK) (t : TrustedThirdParty R1 R2)
    (identifier : Nat) (alleged : List Nat) (pkgs : Mp R2)
    (hid : identifier ∈ t.participantsSet)
    (halleged : ∀ x ∈ alleged, x ∈ t.participantsSet)
    (hpkgs : mLookup identifier t.round2Packages = some pkgs)
    (hnodup : (mKeys pkgs).Nodup)
    (hround1 : ∀ s ∈ mKeys pkgs, s ∈ alleged → s ∈ mKeys t.round1Packages) :
    (∃ t2, t.receiveRound2Culprits P identifier alleged = (.ok .inProgress, t2) ∧
      ∀ ell, ell ∈ t2.round2CulpritsSet ↔ (ell ∈ t.round2CulpritsSet ∨
        (ell ∈ alleged ∧ ∃ pkg r1, mLookup ell pkgs = some pkg ∧
          mLookup ell t.round1Packages = some r1 ∧
          P.verifySecretShare identifier pkg r1 = .error .invalidSecretShare))) ∧
    (∀ (t3 : TrustedThirdParty R1 R2),
      (t3.round2CulpritsSet = [] → t3.tryFinish = .ok .finishedRound3) ∧
      (t3.round2CulpritsSet ≠ [] →
        t3.tryFinish = .error (.dkg .invalidSecretShares))) := by
  constructor
  · rw [TrustedThirdParty.receiveRound2Culprits, if_neg (not_not.mpr hid)]
    have hnotex : ¬ ∃ id ∈ alleged, id ∉ t.participantsSet := by
      intro ⟨x, hx1, hx2⟩
      exact hx2 (halleged x hx1)
    rw [if_neg hnotex, hpkgs]
    obtain ⟨hfst, hmem⟩ := processRound2Culprits_spec P t.round1Packages identifier
      alleged pkgs t.round2CulpritsSet hround1
    simp only [hfst]
    refine ⟨_, rfl, ?_⟩
    intro ell
    rw [hmem ell]
    constructor
    · rintro (hx | ⟨hx1, pkg, r1, hx2, hx3, hx4⟩)
      · exact Or.inl hx
      · exact Or.inr ⟨hx1, pkg, r1, (mLookup_iff_mem_of_nodup hnodup).mpr hx2, hx3, hx4⟩
    · rintro (hx | ⟨hx1, pkg, r1, hx2, hx3, hx4⟩)
      · exact Or.inl hx
      · exact Or.inr ⟨hx1, pkg, r1, (mLookup_iff_mem_of_nodup hnodup).mp hx2, hx3, hx4⟩
  · intro t3
    constructor
    · intro hempty
      rw [TrustedThirdParty.tryFinish, if_neg (not_not.mpr hempty)]
    · intro hne
      rw [TrustedThirdParty.tryFinish, if_pos hne]

/-- Witness for C8 on `ttp8`: the alleged culprit 2 has a verifying share, so
it is not inserted, and `try_finish` on the untouched TTP succeeds. -/
theorem claim_C8_culprit_attribution_witness :
    (∃ t2, TrustedThirdParty.receiveRound2Culprits unitDkgPrimitives ttp8 1 [2] =
      (.ok .inProgress, t2) ∧
      ∀ ell, ell ∈ t2.round2CulpritsSet ↔ (ell ∈ ttp8.round2CulpritsSet ∨
        (ell ∈ [2] ∧ ∃ pkg r1, mLookup ell [(2, ())] = some pkg ∧
          mLookup ell ttp8.round1Packages = some r1 ∧
          unitDkgPrimitives.verifySecretShare 1 pkg r1 =
            .error .invalidSecretShare))) ∧
    (∀ (t3 : TrustedThirdParty Unit Unit),
      (t3.round2CulpritsSet = [] → t3.tryFinish = .ok .finishedRound3) ∧
      (t3.round2CulpritsSet ≠ [] →
        t3.tryFinish = .error (.dkg .invalidSecretShares))) :=
  claim_C8_culprit_attribution unitDkgPrimitives ttp8 1 [2] [(2, ())] (by decide)
    (by decide) rfl (by decide) (by decide)

/-- C9 (counterexample): a participant with 3 signers whose stashed round-1
package map is empty fails `receive_round2_packages` with `InvalidMinSigners`,
not with the `IncorrectNumberOfPackages` the claim asserts. -/
theorem claim_C9_counterexample :
    (Participant.receiveRound2Packages unitDkgPrimitives part9 []).1 =
      (.error (.frost .invalidMinSigners) : Except RError (Unit × Unit)) ∧
    (Participant.receiveRound2Packages unitDkgPrimitives part9 []).1 ≠
      (.error (.frost .incorrectNumberOfPackages) : Except RError (Unit × Unit)) := by
  constructor
  · rfl
  · intro hcontra
    have : (Except.error (.frost .invalidMinSigners) : Except RError (Unit × Unit)) =
        .error (.frost .incorrectNumberOfPackages) := hcontra
    injection this with hh
    injection hh with hh2
    cases hh2

/-- C9 (amended): after the take-once fields are consumed,
`Participant::receive_round2_packages` fails with `InvalidMinSigners` when the
stashed round-1 package count is not `n − 1`, with
`IncorrectNumberOfPackages` when it differs from the incoming round-2 count,
and with `IncorrectPackage` when the round-1 key set is not contained in the
round-2 key set. -/
theorem claim_C9_amended_shape_validation {R1 R2 SK1 SK2 KP PK : Type}
    (P : DkgPrimitives R1 R2 SK2 KP PK) (p : Participant R1 R2 SK1 SK2)
    (sk : SK2) (r1s : Mp R1) (incoming : Mp R2)
    (hsk : p.round2SecretPackage = some sk)
    (hr1 : p.round1Packages = some r1s) :
    (r1s.length ≠ p.maxSigners - 1 →
      p.receiveRound2Packages P incoming = (.error (.frost .invalidMinSigners),
        { p with round2SecretPackage := none, round1Packages := none })) ∧
    (r1s.length = p.maxSigners - 1 → r1s.length ≠ incoming.length →
      p.receiveRound2Packages P incoming =
        (.error (.frost .incorrectNumberOfPackages),
        { p with round2SecretPackage := none, round1Packages := none })) ∧
    (r1s.length = p.maxSigners - 1 → r1s.length = incoming.length →
      (∃ k ∈ mKeys r1s, k ∉ mKeys incoming) →
      p.receiveRound2Packages P incoming = (.error (.frost .incorrectPackage),
        { p with round2SecretPackage := none, round1Packages := none })) := by
  rw [Participant.receiveRound2Packages, hsk]
  simp only [hr1]
  refine ⟨?_, ?_, ?_⟩
  · intro hlen
    rw [if_pos hlen]
  · intro hlen1 hlen2
    rw [if_neg (not_not.mpr hlen1), if_pos hlen2]
  · intro hlen1 hlen2 hkeys
    rw [if_neg (not_not.mpr hlen1), if_neg (not_not.mpr hlen2), if_pos hkeys]

/-- Witness for the amended C9 on `part9`: the empty stash (0 ≠ 3 − 1 = 2)
produces `InvalidMinSigners`. -/
theorem claim_C9_amended_shape_validation_witness :
    Participant.receiveRound2Packages unitDkgPrimitives part9 [] =
      ((.error (.frost .invalidMinSigners) : Except RError (Unit × Unit)),
      { part9 with round2SecretPackage := none, round1Packages := none }) :=
  (claim_C9_amended_shape_validation unitDkgPrimitives part9 () [] [] rfl rfl).1
    (by decide)

end ClaimTheorems

end Roast
